import Mathlib

/-!
Verification model of the Echo Mini firmware repair / theme-patch tools
(`fix_img_echo_mini.py` and `patch_echo_mini.py`).

The firmware container is modelled as a byte buffer: a length together with a
byte-valued function on positions (`Buf`).  All reads normalise through
`% 256`, so a `Buf` behaves exactly like the Python `bytearray` whose byte at
position `i` is `b.get i % 256`.  Machine integers are modelled as `Nat` with
explicit bounds where Python (`struct.pack_into`) would overflow.

Operations that raise in Python (struct.error on out-of-range pack,
IndexError, AssertionError, and BufferError on resizing a bytearray while the
`part5` memoryview is alive during `patch_for_themed_boots`) are modelled by
returning `none`.
-/

set_option maxRecDepth 100000
set_option maxHeartbeats 4000000

namespace FwModel

/-- A mutable byte buffer: current length plus contents function. -/
structure Buf where
  len : Nat
  get : Nat → Nat

/-- Read the byte at position `i` (bytearray cells are always in `[0,256)`). -/
def rd (b : Buf) (i : Nat) : Nat := b.get i % 256

/-- Little-endian 16-bit read, `struct.unpack_from('<H', data, off)`. -/
def readU16 (b : Buf) (off : Nat) : Nat := rd b off + 256 * rd b (off + 1)

/-- Little-endian 32-bit read, `struct.unpack_from('<I', data, off)`. -/
def readU32 (b : Buf) (off : Nat) : Nat :=
  rd b off + 256 * rd b (off + 1) + 65536 * rd b (off + 2) + 16777216 * rd b (off + 3)

/-- The four little-endian bytes of a 32-bit value, `struct.pack('<I', v)` for `v < 2^32`. -/
def u32Bytes (v : Nat) : List Nat :=
  [v % 256, v / 256 % 256, v / 65536 % 256, v / 16777216 % 256]

/-- In-place slice assignment `data[off:off+len(bs)] = bs` (lengths matching,
no resize; Python copies the right-hand side before writing, which this
functional update reproduces). -/
def writeBytes (b : Buf) (off : Nat) (bs : List Nat) : Buf :=
  ⟨b.len, fun i => if off ≤ i ∧ i < off + bs.length then bs.getD (i - off) 0 else b.get i⟩

/-- Resize to exactly `n` bytes: `data.extend(b'\x00' * _)` when growing,
`del data[n:]` when shrinking. -/
def Buf.resize (b : Buf) (n : Nat) : Buf :=
  ⟨n, fun i => if i < b.len ∧ i < n then b.get i else 0⟩

/-- The bytes `data[off:off+n]` (reads assumed in bounds by callers). -/
def sliceBytes (b : Buf) (off n : Nat) : List Nat :=
  (List.range n).map (fun k => rd b (off + k))

/-- The last four bytes `data[-4:]` of the buffer. -/
def trailer4 (b : Buf) : List Nat := sliceBytes b (b.len - 4) 4

/-- Byte-for-byte equality of two buffers (same length, same bytes below it). -/
def BufEq (b1 b2 : Buf) : Prop :=
  b1.len = b2.len ∧ ∀ i, i < b1.len → rd b1 i = rd b2 i

instance : DecidablePred (fun p : Buf × Buf => BufEq p.1 p.2) := by
  intro p
  unfold BufEq
  infer_instance

instance (b1 b2 : Buf) : Decidable (BufEq b1 b2) := by
  unfold BufEq
  infer_instance

/-- `data[0x1F8:0x200] == b'RKnanoFW'` (false on buffers shorter than 0x200,
exactly as the truncated Python slice compares unequal). -/
def hasMagicB (b : Buf) : Bool :=
  decide (0x200 ≤ b.len) &&
  (rd b 0x1F8 == 0x52) && (rd b 0x1F9 == 0x4B) && (rd b 0x1FA == 0x6E) &&
  (rd b 0x1FB == 0x61) && (rd b 0x1FC == 0x6E) && (rd b 0x1FD == 0x6F) &&
  (rd b 0x1FE == 0x46) && (rd b 0x1FF == 0x57)

/-- `p5_end = p5_off + p5_sz`, partition 5's true end read from 0x14C/0x150. -/
def p5end (b : Buf) : Nat := readU32 b 0x14C + readU32 b 0x150

/-- The boot pointer after step ②: rounded up to the next 64KiB boundary when
the stored pointer is smaller than the true partition end, otherwise kept. -/
def newFwEnd (b : Buf) : Nat :=
  if readU32 b 0x1F4 < p5end b then ((p5end b + 0xFFFF) / 0x10000) * 0x10000
  else readU32 b 0x1F4

/-- `fw_size = ((fw_end + 16384 + ALIGN) // ALIGN) * ALIGN` with `ALIGN = 1MiB`. -/
def fwSizeOf (b : Buf) : Nat := ((newFwEnd b + 16384 + 0x100000) / 0x100000) * 0x100000

/-- `needed = fw_size + 4`: the exact total size the file is resized to. -/
def neededSize (b : Buf) : Nat := fwSizeOf b + 4

/-- Step ② of `fix`: store the recomputed boot pointer at 0x1F4 when it grew. -/
def fixB1 (b : Buf) : Buf :=
  if readU32 b 0x1F4 < p5end b then writeBytes b 0x1F4 (u32Bytes (newFwEnd b)) else b

/-- Step ③ of `fix`: grow (zero-fill) or truncate the file to `needed` bytes. -/
def fixB2 (b : Buf) : Buf := (fixB1 b).resize (neededSize b)

/-- Step ④ of `fix`: copy the 512-byte header to the boot pointer. -/
def fixB3 (b : Buf) : Buf := writeBytes (fixB2 b) (newFwEnd b) (sliceBytes (fixB2 b) 0 0x200)

/-- `FirmwareFixer.fix` / `FirmwarePatcher._fix_integrity` body: steps ①-⑤.
The trailer saved in step ① (from the buffer before any mutation) is restored
in step ⑤ at the final file end `needed - 4`. -/
def fixIntegrity (b : Buf) : Buf :=
  writeBytes (fixB3 b) (neededSize b - 4) (sliceBytes b (b.len - 4) 4)

/-- True when `struct.pack_into('<I', ...)` of the recomputed boot pointer
would raise struct.error.  The pack only happens in the grow branch, where
`newFwEnd` is the rounded value; in the other branch `newFwEnd` is a 4-byte
read and is always below `2^32`, so this single test is faithful. -/
def overflowB (b : Buf) : Bool := decide (4294967296 ≤ newFwEnd b)

/-- The `repair` operation of `fix_img_echo_mini.py`: loading checks the
RKnanoFW magic (raising otherwise), then `fix` runs; an overflowing pack
raises mid-way, modelled as `none`. -/
def repairFn (b : Buf) : Option Buf :=
  if hasMagicB b = false then none
  else if overflowB b = true then none
  else some (fixIntegrity b)

/-- Byte-level equality of optional results (both fail, or both succeed with
byte-identical buffers). -/
def optionBufEq : Option Buf → Option Buf → Prop
  | some a, some c => BufEq a c
  | none, none => True
  | _, _ => False

/-- The integrity-fix tail step of `patch_for_themed_boots`: a silent no-op on
unsigned buffers; on signed buffers the resize would raise BufferError (the
`part5` memoryview is still alive), so it only completes when the file is
already exactly `needed` bytes; an overflowing pack raises struct.error. -/
def fixStepGuarded (b : Buf) : Option Buf :=
  if hasMagicB b = false then some b
  else if overflowB b = true then none
  else if neededSize b ≠ b.len then none
  else some (fixIntegrity b)

/-! The ARM Thumb2 ADD-wide instruction codec (`_decode_addw` / `_encode_addw`). -/

/-- `_decode_addw(hw1, hw2)`: reassemble the 12-bit immediate from bit 10 of
the first halfword, bits 14:12 and bits 7:0 of the second. -/
def decodeAddw (hw1 hw2 : Nat) : Nat :=
  (((hw1 >>> 10) &&& 1) <<< 11) ||| (((hw2 >>> 12) &&& 0x7) <<< 8) ||| (hw2 &&& 0xFF)

/-- `_encode_addw(imm12, rd, rn)` halfwords (the assert `0 <= imm12 < 4096` is
a side condition of the callers). -/
def encodeAddwHw (imm12 rdReg rnReg : Nat) : Nat × Nat :=
  ((0xF200 ||| (((imm12 >>> 11) &&& 1) <<< 10)) ||| rnReg,
   ((((imm12 >>> 8) &&& 0x7) <<< 12) ||| (rdReg <<< 8)) ||| (imm12 &&& 0xFF))

/-- `struct.pack('<HH', hw1, hw2)`: the four bytes written into the binary. -/
def encodeAddwBytes (imm12 rdReg rnReg : Nat) : List Nat :=
  [(encodeAddwHw imm12 rdReg rnReg).1 % 256, (encodeAddwHw imm12 rdReg rnReg).1 / 256 % 256,
   (encodeAddwHw imm12 rdReg rnReg).2 % 256, (encodeAddwHw imm12 rdReg rnReg).2 / 256 % 256]

/-! `FirmwarePatcher._parse`: locating the ROCK26 resource index and the
metadata table inside partition 5.  `part5` is the memoryview slice
`data[p5_off : p5_off + p5_sz]`, truncated at the end of the file, so its
length is `min p5_sz (len - p5_off)`; all reads below stay inside it.
The `while` loops are written with an explicit fuel that provably dominates
their iteration count (each call site passes one more than the largest
possible number of steps), so exhausting fuel coincides with loop exit. -/

/-- One record of `self.entries`. -/
structure MetaEntry where
  name : List Nat
  offset : Nat
  width : Nat
  height : Nat
  tablePos : Nat
deriving DecidableEq

instance : Inhabited MetaEntry := ⟨⟨[], 0, 0, 0, 0⟩⟩

/-- Everything `_parse` stores on `self`. -/
structure ParseResult where
  part5Offset : Nat
  part5Size : Nat
  rock26Off : Nat
  rock26Start : Nat
  rock26Count : Nat
  tableStart : Nat
  entries : List MetaEntry
deriving DecidableEq

/-- Byte `part5[k]` (callers keep `k` below the part5 length). -/
def p5get (b : Buf) (p5off k : Nat) : Nat := rd b (p5off + k)

/-- Bytes `part5[off : off+n]`. -/
def sliceP5 (b : Buf) (p5off off n : Nat) : List Nat :=
  (List.range n).map (fun k => p5get b p5off (off + k))

/-- Little-endian u32 read inside part5. -/
def readU32P5 (b : Buf) (p5off off : Nat) : Nat :=
  p5get b p5off off + 256 * p5get b p5off (off + 1) +
    65536 * p5get b p5off (off + 2) + 16777216 * p5get b p5off (off + 3)

/-- The ASCII bytes of `ROCK26IMAGERES`. -/
def rock26Sig : List Nat := [82, 79, 67, 75, 50, 54, 73, 77, 65, 71, 69, 82, 69, 83]

def sigMatchAt (b : Buf) (p5off r : Nat) : Bool :=
  (List.range 14).all (fun j => p5get b p5off (r + j) == rock26Sig.getD j 0)

/-- `bytes(part5).find(b'ROCK26IMAGERES')`: first match position, if any. -/
def findSig (b : Buf) (p5off pl : Nat) : Nat → Nat → Option Nat
  | 0, _ => none
  | fuel + 1, r =>
    if r + 14 ≤ pl then
      if sigMatchAt b p5off r then some r else findSig b p5off pl fuel (r + 1)
    else none

/-- `bytes(part5[pos+32:pos+96]).split(b'\x00')[0].decode('ascii', errors='ignore')`:
the name field up to the first NUL, with non-ASCII bytes dropped. -/
def nameAt (b : Buf) (p5off pos : Nat) : List Nat :=
  ((sliceP5 b p5off (pos + 32) 64).takeWhile (fun c => c != 0)).filter (fun c => c < 128)

/-- `nm.endswith('.BMP')`. -/
def endsWithBMP (nm : List Nat) : Bool := [46, 66, 77, 80].isSuffixOf nm

/-- The anchor-correlation scan: first 4-aligned `pos < pl - 108` whose u32 at
`pos+20` equals the anchor and whose name looks like a plausible `.BMP` name. -/
def firstMatchScan (b : Buf) (p5off pl anchor : Nat) : Nat → Nat → Option Nat
  | 0, _ => none
  | fuel + 1, pos =>
    if pos < pl - 108 then
      if readU32P5 b p5off (pos + 20) == anchor && endsWithBMP (nameAt b p5off pos) &&
          decide (5 ≤ (nameAt b p5off pos).length) then some pos
      else firstMatchScan b p5off pl anchor fuel (pos + 4)
    else none

/-- The backward walk from the tentative match to the true table start. -/
def walkBack (b : Buf) (p5off : Nat) : Nat → Nat → Nat
  | 0, ts => ts
  | fuel + 1, ts =>
    if 108 ≤ ts then
      if !(nameAt b p5off (ts - 108)).isEmpty && endsWithBMP (nameAt b p5off (ts - 108)) &&
          decide (3 ≤ (nameAt b p5off (ts - 108)).length) then
        walkBack b p5off fuel (ts - 108)
      else ts
    else ts

/-- The forward parse of the metadata table in 108-byte strides. -/
def entriesFrom (b : Buf) (p5off pl : Nat) : Nat → Nat → List MetaEntry
  | 0, _ => []
  | fuel + 1, pos =>
    if pos + 108 ≤ pl then
      if (nameAt b p5off pos).isEmpty || decide ((nameAt b p5off pos).length < 3) then []
      else
        ⟨nameAt b p5off pos, readU32P5 b p5off (pos + 20), readU32P5 b p5off (pos + 24),
          readU32P5 b p5off (pos + 28), pos⟩ :: entriesFrom b p5off pl fuel (pos + 108)
    else []

/-- `FirmwarePatcher.__init__` / `_parse`; `none` models the ValueErrors and
struct.errors it can raise.  The `<IIII` unpack needs the header slice
complete; the count and anchor unpacks need their 4-byte slices inside part5. -/
def parse (b : Buf) : Option ParseResult :=
  if b.len < 0x15C then none
  else
    match findSig b (readU32 b 0x14C) (min (readU32 b 0x150) (b.len - readU32 b 0x14C))
        (min (readU32 b 0x150) (b.len - readU32 b 0x14C) + 1) 0 with
    | none => none
    | some r =>
      if min (readU32 b 0x150) (b.len - readU32 b 0x14C) < r + 20 then none
      else if min (readU32 b 0x150) (b.len - readU32 b 0x14C) < r + 48 then none
      else
        match firstMatchScan (b := b) (readU32 b 0x14C)
            (min (readU32 b 0x150) (b.len - readU32 b 0x14C))
            (readU32P5 b (readU32 b 0x14C) (r + 44))
            (min (readU32 b 0x150) (b.len - readU32 b 0x14C) + 1) 0 with
        | none => none
        | some fm =>
          some
            { part5Offset := readU32 b 0x14C
              part5Size := readU32 b 0x150
              rock26Off := r
              rock26Start := r + 32
              rock26Count := readU32P5 b (readU32 b 0x14C) (r + 16)
              tableStart := walkBack b (readU32 b 0x14C) (fm / 108 + 1) fm
              entries :=
                entriesFrom b (readU32 b 0x14C)
                  (min (readU32 b 0x150) (b.len - readU32 b 0x14C))
                  (min (readU32 b 0x150) (b.len - readU32 b 0x14C) / 108 + 1)
                  (walkBack b (readU32 b 0x14C) (fm / 108 + 1) fm) }

/-! `FirmwarePatcher.detect_patch_info`. -/

inductive DetectErr where
  | patternNotFound
  | incompletePattern
  | structErr
deriving DecidableEq

/-- The ADDW mask test used by the detector on a pair of halfwords. -/
def maskOkAddw (h1 h2 : Nat) : Bool := (h1 &&& 0xFBE0 == 0xF200) && (h2 &&& 0x8F00 == 0)

/-- The inner window scan collecting `(offset, imm)` pairs of plausible ADDW
instructions in `range(off+2, off+80, 2)` (immediates above the noise
threshold 100 only); `scan + 4 > len` stops the whole loop. -/
def addwScan (b : Buf) (off : Nat) : Nat → Nat → List (Nat × Nat)
  | 0, _ => []
  | fuel + 1, scan =>
    if scan < off + 80 then
      if b.len < scan + 4 then []
      else
        if maskOkAddw (readU16 b scan) (readU16 b (scan + 2)) &&
            decide (100 < decodeAddw (readU16 b scan) (readU16 b (scan + 2))) then
          (scan, decodeAddw (readU16 b scan) (readU16 b (scan + 2))) :: addwScan b off fuel (scan + 2)
        else addwScan b off fuel (scan + 2)
    else []

/-- A compare candidate qualifies when its 16-bit value is the unpatched or
patched literal and at least four plausible ADDW immediates follow. -/
def qualifiesB (b : Buf) (off : Nat) : Bool :=
  (readU16 b off == 0x2843 || readU16 b off == 0x2800) &&
    decide (4 ≤ (addwScan b off 40 (off + 2)).length)

inductive ScanOut where
  | found (off : Nat)
  | notFound
  | crashed
deriving DecidableEq

/-- The outer scan `for off in range(0x200, min(len, 0x400000), 2)`; a 2-byte
read past the end of the buffer raises struct.error (`crashed`). -/
def findCmp (b : Buf) (bound : Nat) : Nat → Nat → ScanOut
  | 0, _ => .notFound
  | fuel + 1, off =>
    if off < bound then
      if b.len < off + 2 then .crashed
      else if qualifiesB b off then .found off
      else findCmp b bound fuel (off + 2)
    else .notFound

/-- The detector's result record. -/
structure PatchInfo where
  cmpOffset : Nat
  cmpValue : Nat
  isPatched : Bool
  addwList : List (Nat × Nat)
  oldBlockSize : Nat
  sharedCount : Nat
  newBlockSize : Nat
  resourceCount : Nat
deriving DecidableEq

/-- `detect_patch_info`: find the first qualifying compare, re-collect the
first four ADDW hits of its window, and derive the block sizes
(`SHARED_COUNT = 67`). -/
def detectPatchInfo (b : Buf) (rc : Nat) : Except DetectErr PatchInfo :=
  match findCmp b (min b.len 0x400000) 0x400000 0x200 with
  | .crashed => .error .structErr
  | .notFound => .error .patternNotFound
  | .found off =>
    if ((addwScan b off 40 (off + 2)).take 4).length < 4 then .error .incompletePattern
    else
      .ok
        { cmpOffset := off
          cmpValue := readU16 b off
          isPatched := readU16 b off == 0x2800
          addwList := (addwScan b off 40 (off + 2)).take 4
          oldBlockSize :=
            if readU16 b off == 0x2800 then
              ((((addwScan b off 40 (off + 2)).take 4).map Prod.snd).getD 0 0) - 67
            else (((addwScan b off 40 (off + 2)).take 4).map Prod.snd).getD 0 0
          sharedCount := 67
          newBlockSize :=
            (if readU16 b off == 0x2800 then
              ((((addwScan b off 40 (off + 2)).take 4).map Prod.snd).getD 0 0) - 67
            else (((addwScan b off 40 (off + 2)).take 4).map Prod.snd).getD 0 0) + 67
          resourceCount := rc }

/-! The table expansion (step 2 of `patch_for_themed_boots`): one pass over
the five themes, replicating the 67-entry shared block (with theme-prefixed
names for themes B–E) and that theme's private block into both tables. -/

/-- `theme_letters = ['A','B','C','D','E']` as ASCII codes. -/
def themeLetters : List Nat := [65, 66, 67, 68, 69]

/-- `f"T_{letter}_{orig}".encode('ascii')[:63]` (parsed names are ASCII). -/
def newNameBytes (letter : Nat) (orig : List Nat) : List Nat :=
  ([84, 95, letter, 95] ++ orig).take 63

/-- `name_bytes + b'\x00' * (64 - len(name_bytes))`. -/
def nameField (nb : List Nat) : List Nat := nb ++ List.replicate (64 - nb.length) 0

/-- `meta_raw[32:96] = nameField` on a 108-byte record. -/
def spliceName (raw nb : List Nat) : List Nat := raw.take 32 ++ nameField nb ++ raw.drop 96

/-- `shared_r26`: the 67 shared 16-byte resource records. -/
def sharedR26 (b : Buf) (p5off r26start S : Nat) : List (List Nat) :=
  (List.range S).map (fun i => sliceP5 b p5off (r26start + i * 16) 16)

/-- `shared_meta_raw`: the raw 108-byte records of the first 67 entries. -/
def sharedMetaRaw (b : Buf) (p5off : Nat) (entries : List MetaEntry) (S : Nat) :
    List (List Nat) :=
  (List.range S).map (fun i => sliceP5 b p5off ((entries.getD i default).tablePos) 108)

/-- The metadata record pushed for shared index `i` under theme `t`. -/
def metaForTheme (b : Buf) (p5off : Nat) (entries : List MetaEntry) (S t i : Nat) :
    List Nat :=
  if 0 < t then
    spliceName ((sharedMetaRaw b p5off entries S).getD i [])
      (newNameBytes (themeLetters.getD t 0) ((entries.getD i default).name))
  else (sharedMetaRaw b p5off entries S).getD i []

/-- The resource record pushed for private source index `src` (first shared
record as the defensive filler when `src` runs past the stored count). -/
def privR26entry (b : Buf) (p5off r26start oc S : Nat) (src : Nat) : List Nat :=
  if src < oc then sliceP5 b p5off (r26start + src * 16) 16
  else (sharedR26 b p5off r26start S).getD 0 []

/-- The metadata record pushed for private source index `src`. -/
def privMetaEntry (b : Buf) (p5off : Nat) (entries : List MetaEntry) (S : Nat)
    (src : Nat) : List Nat :=
  if src < entries.length then sliceP5 b p5off ((entries.getD src default).tablePos) 108
  else (sharedMetaRaw b p5off entries S).getD 0 []

/-- One theme's contribution to the new resource table. -/
def themeR26 (b : Buf) (p5off r26start oc : Nat) (S OB t : Nat) : List (List Nat) :=
  (List.range S).map (fun i => (sharedR26 b p5off r26start S).getD i []) ++
    (List.range OB).map (fun i => privR26entry b p5off r26start oc S (S + t * OB + i))

/-- One theme's contribution to the new metadata table. -/
def themeMeta (b : Buf) (p5off : Nat) (entries : List MetaEntry) (S OB t : Nat) :
    List (List Nat) :=
  (List.range S).map (fun i => metaForTheme b p5off entries S t i) ++
    (List.range OB).map (fun i => privMetaEntry b p5off entries S (S + t * OB + i))

/-- `new_r26` after the five-theme loop. -/
def newR26 (b : Buf) (p5off r26start oc : Nat) (S OB : Nat) : List (List Nat) :=
  ((List.range 5).map (fun t => themeR26 b p5off r26start oc S OB t)).flatten

/-- `new_meta` after the five-theme loop. -/
def newMeta (b : Buf) (p5off : Nat) (entries : List MetaEntry) (S OB : Nat) :
    List (List Nat) :=
  ((List.range 5).map (fun t => themeMeta b p5off entries S OB t)).flatten

/-- The same traversal emitting both records of each step as a pair — the
lockstep witness for the parallel-array invariant. -/
def themePairsOf (b : Buf) (p5off r26start oc : Nat) (entries : List MetaEntry)
    (S OB t : Nat) : List (List Nat × List Nat) :=
  (List.range S).map
      (fun i => ((sharedR26 b p5off r26start S).getD i [], metaForTheme b p5off entries S t i)) ++
    (List.range OB).map
      (fun i => (privR26entry b p5off r26start oc S (S + t * OB + i),
        privMetaEntry b p5off entries S (S + t * OB + i)))

def newPairs (b : Buf) (p5off r26start oc : Nat) (entries : List MetaEntry)
    (S OB : Nat) : List (List Nat × List Nat) :=
  ((List.range 5).map (fun t => themePairsOf b p5off r26start oc entries S OB t)).flatten

/-- Sequential entry write-back: `data[pos + i*stride : pos + i*stride + len(e)] = e`. -/
def writeList (b : Buf) (pos stride : Nat) : List (List Nat) → Buf
  | [] => b
  | e :: rest => writeList (writeBytes b pos e) (pos + stride) stride rest

/-- The four ADDW rewrites: `data[foff:foff+4] = _encode_addw(NEW_BLK*(i+1))`. -/
def writeAddws (b : Buf) (NB : Nat) : Nat → List (Nat × Nat) → Buf
  | _, [] => b
  | i, (foff, _) :: rest => writeAddws (writeBytes b foff (encodeAddwBytes (NB * (i + 1)) 0 0)) NB (i + 1) rest

/-- Outcome of `patch_for_themed_boots`: the final buffer plus whether the
already-patched early return was taken. -/
structure PatchOut where
  data : Buf
  alreadyPatched : Bool

/-- All private-block resource reads that hit a live source index stay inside
part5 (otherwise the truncated read later feeds a mismatched slice assignment,
which resizes the exported bytearray and raises BufferError). -/
def privReadsOk (r26start oc S OB pl : Nat) : Bool :=
  (List.range 5).all fun t =>
    (List.range OB).all fun i =>
      !(S + t * OB + i < oc) || decide (r26start + (S + t * OB + i) * 16 + 16 ≤ pl)

/-- Steps 3-7 of `patch_for_themed_boots`: the ROCK26 count update, both
table write-backs, the Part5-size update, the CMP rewrite and the four ADDW
rewrites, applied in program order. -/
def patchWrites (b : Buf) (P : ParseResult) (info : PatchInfo) : Buf :=
  writeAddws
    (writeBytes
      (writeBytes
        (writeList
          (writeList
            (writeBytes b (P.part5Offset + P.rock26Off + 16)
              (u32Bytes
                (newR26 b P.part5Offset P.rock26Start P.rock26Count
                  info.sharedCount info.oldBlockSize).length))
            (P.part5Offset + P.rock26Start) 16
            (newR26 b P.part5Offset P.rock26Start P.rock26Count
              info.sharedCount info.oldBlockSize))
          (P.part5Offset + P.tableStart) 108
          (newMeta b P.part5Offset P.entries info.sharedCount info.oldBlockSize))
        0x150
        (u32Bytes
          (P.part5Offset + P.tableStart +
            (newMeta b P.part5Offset P.entries info.sharedCount
              info.oldBlockSize).length * 108 - P.part5Offset)))
      info.cmpOffset [0x00, 0x28])
    info.newBlockSize 0 info.addwList

/-- `patch_for_themed_boots`.  `none` models every way the Python run dies:
parse/detect ValueErrors, IndexError on fewer than 67 parsed entries,
truncated shared reads, BufferError on any `data.extend`/`del data[...]`
while the `part5` memoryview is alive (table write-back past the end of the
file, or a resize inside the final `_fix_integrity`), the `_encode_addw`
assert, and struct.error on packing an out-of-range `new_p5_end`. -/
def patchForThemedBoots (b : Buf) : Option PatchOut :=
  match parse b with
  | none => none
  | some P =>
    match detectPatchInfo b P.rock26Count with
    | .error _ => none
    | .ok info =>
      if info.isPatched then some ⟨b, true⟩
      else
        if 67 ≤ P.entries.length then
          if P.rock26Start + 67 * 16 ≤ min P.part5Size (b.len - P.part5Offset) then
            if privReadsOk P.rock26Start P.rock26Count info.sharedCount
                info.oldBlockSize (min P.part5Size (b.len - P.part5Offset)) = true then
              if P.part5Offset + P.rock26Start +
                  (newR26 b P.part5Offset P.rock26Start P.rock26Count info.sharedCount
                    info.oldBlockSize).length * 16 ≤ b.len then
                if P.part5Offset + P.tableStart +
                    (newMeta b P.part5Offset P.entries info.sharedCount
                      info.oldBlockSize).length * 108 ≤ b.len then
                  if P.part5Offset + P.tableStart +
                      (newMeta b P.part5Offset P.entries info.sharedCount
                        info.oldBlockSize).length * 108 - P.part5Offset < 4294967296 then
                    if info.newBlockSize * 4 < 4096 then
                      match fixStepGuarded (patchWrites b P info) with
                      | none => none
                      | some y => some ⟨y, false⟩
                    else none
                  else none
                else none
              else none
            else none
          else none
        else none

/-! Concrete containers used by counterexamples and witnesses. -/

/-- A signed 512-byte container whose stored boot pointer is 0x100 (inside the
header area) and whose bytes at 0xF4 spell a huge value: after `fix` the
header copy lands on the header itself and clobbers the stored pointer. -/
def c1x : Buf :=
  ⟨512, fun i =>
    if 0xF4 ≤ i ∧ i < 0xF8 then [255, 255, 255, 127].getD (i - 0xF4) 0
    else if 0x1F4 ≤ i ∧ i < 0x1F8 then [0, 1, 0, 0].getD (i - 0x1F4) 0
    else if 0x1F8 ≤ i ∧ i < 0x200 then [82, 75, 110, 97, 110, 111, 70, 87].getD (i - 0x1F8) 0
    else 0⟩

/-- A signed 512-byte container with stored boot pointer 0x100: the header
copy of `fix` overwrites 0x1F8 with zeros, so the output no longer carries the
magic and a second `repair` refuses to load it. -/
def c2x : Buf :=
  ⟨512, fun i =>
    if 0x1F4 ≤ i ∧ i < 0x1F8 then [0, 1, 0, 0].getD (i - 0x1F4) 0
    else if 0x1F8 ≤ i ∧ i < 0x200 then [82, 75, 110, 97, 110, 111, 70, 87].getD (i - 0x1F8) 0
    else 0⟩

/-- A signed container whose partition ends exactly at the 64KiB boundary
0x10000 while the stored pointer is 0xFFFF (one byte less). -/
def c8x : Buf :=
  ⟨512, fun i =>
    if 0x14C ≤ i ∧ i < 0x150 then [0, 0, 1, 0].getD (i - 0x14C) 0
    else if 0x1F4 ≤ i ∧ i < 0x1F8 then [255, 255, 0, 0].getD (i - 0x1F4) 0
    else if 0x1F8 ≤ i ∧ i < 0x200 then [82, 75, 110, 97, 110, 111, 70, 87].getD (i - 0x1F8) 0
    else 0⟩

/-- A well-formed signed 512-byte container with stored boot pointer 0x200. -/
def w1 : Buf :=
  ⟨512, fun i =>
    if 0x1F4 ≤ i ∧ i < 0x1F8 then [0, 2, 0, 0].getD (i - 0x1F4) 0
    else if 0x1F8 ≤ i ∧ i < 0x200 then [82, 75, 110, 97, 110, 111, 70, 87].getD (i - 0x1F8) 0
    else 0⟩

/-- Like `w1` but already resized to its own `needed` size (1MiB + 4), as the
pipeline fix step requires. -/
def w1b : Buf :=
  ⟨1048580, fun i =>
    if 0x1F4 ≤ i ∧ i < 0x1F8 then [0, 2, 0, 0].getD (i - 0x1F4) 0
    else if 0x1F8 ≤ i ∧ i < 0x200 then [82, 75, 110, 97, 110, 111, 70, 87].getD (i - 0x1F8) 0
    else 0⟩

/-- A signed container whose partition end 0x10001 is unaligned and one byte
above the stored pointer 0x10000. -/
def w8 : Buf :=
  ⟨512, fun i =>
    if 0x14C ≤ i ∧ i < 0x150 then [1, 0, 1, 0].getD (i - 0x14C) 0
    else if 0x1F4 ≤ i ∧ i < 0x1F8 then [0, 0, 1, 0].getD (i - 0x1F4) 0
    else if 0x1F8 ≤ i ∧ i < 0x200 then [82, 75, 110, 97, 110, 111, 70, 87].getD (i - 0x1F8) 0
    else 0⟩

/-- A small already-patched container: `CMP R0,#0x00` at 0x200 followed by
four ADDW instructions with immediate 168, and a one-entry ROCK26/metadata
pair inside partition 5 at 0x220. -/
def bufPatched : Buf :=
  ⟨1024, fun i =>
    if 0x14C ≤ i ∧ i < 0x150 then [0x20, 0x02, 0, 0].getD (i - 0x14C) 0
    else if 0x150 ≤ i ∧ i < 0x154 then [0xC0, 0x01, 0, 0].getD (i - 0x150) 0
    else if i = 0x201 then 0x28
    else if 0x202 ≤ i ∧ i < 0x212 then [0x00, 0xF2, 0xA8, 0x00].getD ((i - 0x202) % 4) 0
    else if 576 ≤ i ∧ i < 590 then rock26Sig.getD (i - 576) 0
    else if i = 592 then 1
    else if 620 ≤ i ∧ i < 624 then [0x0A, 0x0B, 0x0C, 0x0D].getD (i - 620) 0
    else if 644 ≤ i ∧ i < 648 then [0x0A, 0x0B, 0x0C, 0x0D].getD (i - 644) 0
    else if 656 ≤ i ∧ i < 663 then [66, 48, 48, 46, 66, 77, 80].getD (i - 656) 0
    else 0⟩

/-- What `_parse` finds on `bufPatched`. -/
def bufPatchedParse : ParseResult :=
  { part5Offset := 544
    part5Size := 448
    rock26Off := 32
    rock26Start := 64
    rock26Count := 1
    tableStart := 80
    entries := [⟨[66, 48, 48, 46, 66, 77, 80], 218893066, 0, 0, 80⟩] }

/-- What `detect_patch_info` reports on `bufPatched`. -/
def bufPatchedInfo : PatchInfo :=
  { cmpOffset := 512
    cmpValue := 10240
    isPatched := true
    addwList := [(514, 168), (518, 168), (522, 168), (526, 168)]
    oldBlockSize := 101
    sharedCount := 67
    newBlockSize := 168
    resourceCount := 1 }


/-- A zero container of even length 528: the detector scan window contains no
compare candidate at all. -/
def c9w : Buf := ⟨528, fun _ => 0⟩

/-- A container with a single compare candidate (`CMP R0,#0x43` at 0x200)
followed by no ADDW instructions at all. -/
def c9cx : Buf := ⟨544, fun i => if i = 0x200 then 0x43 else if i = 0x201 then 0x28 else 0⟩


/-- The ASCII bytes of `BOOT_A.BMP`. -/
def bootName : List Nat := [66, 79, 79, 84, 95, 65, 46, 66, 77, 80]

/-- A tiny partition image holding one 108-byte metadata record at offset 0
whose name field spells `BOOT_A.BMP`. -/
def b7 : Buf := ⟨120, fun i => if 32 ≤ i ∧ i < 42 then bootName.getD (i - 32) 0 else 0⟩

/-- The parsed entry list of `b7`. -/
def entries7 : List MetaEntry := [⟨bootName, 0, 0, 0, 0⟩]


/-- A container from which `patch_for_themed_boots` runs to completion and
overwrites its final four bytes: partition 5 at 0x1000 holds the ROCK26 index
(count 67) and 67 `B00.BMP` metadata records, the dispatch idiom at 0x200 is
the unpatched `CMP R0,#0x43` with four ADDW immediates of 101, and the file
ends exactly where the 840 expanded metadata records will end, so the last
record's filler bytes land on the trailer.  The RKnanoFW magic is absent
(FirmwarePatcher never checks it), so the final fix step is a silent no-op
and the run completes without any resize. -/
def x3 : Buf :=
  ⟨95952, fun i =>
    if 0x14C ≤ i ∧ i < 0x150 then [0x00, 0x10, 0, 0].getD (i - 0x14C) 0
    else if 0x150 ≤ i ∧ i < 0x154 then [0x00, 0x22, 0, 0].getD (i - 0x150) 0
    else if i = 0x200 then 0x43
    else if i = 0x201 then 0x28
    else if 0x202 ≤ i ∧ i < 0x212 then [0x00, 0xF2, 0x65, 0x00].getD ((i - 0x202) % 4) 0
    else if 4128 ≤ i ∧ i < 4142 then rock26Sig.getD (i - 4128) 0
    else if i = 4144 then 67
    else if 4172 ≤ i ∧ i < 4176 then [0x0A, 0x0B, 0x0C, 0x0D].getD (i - 4172) 0
    else if 5232 ≤ i ∧ i < 12468 then
      (if 32 ≤ (i - 5232) % 108 ∧ (i - 5232) % 108 < 39 then
        [66, 48, 48, 46, 66, 77, 80].getD ((i - 5232) % 108 - 32) 0
      else if (i - 5232) / 108 = 0 ∧ 20 ≤ (i - 5232) % 108 ∧ (i - 5232) % 108 < 24 then
        [0x0A, 0x0B, 0x0C, 0x0D].getD ((i - 5232) % 108 - 20) 0
      else 0)
    else if 95948 ≤ i then [0xDE, 0xAD, 0xBE, 0xEF].getD (i - 95948) 0
    else 0⟩

/-- `bufPatched` padded to 92KiB, so that the expanded tables would fit well
clear of the final four bytes. -/
def bufPatchedBig : Buf :=
  ⟨94208, fun i =>
    if 0x14C ≤ i ∧ i < 0x150 then [0x20, 0x02, 0, 0].getD (i - 0x14C) 0
    else if 0x150 ≤ i ∧ i < 0x154 then [0xC0, 0x01, 0, 0].getD (i - 0x150) 0
    else if i = 0x201 then 0x28
    else if 0x202 ≤ i ∧ i < 0x212 then [0x00, 0xF2, 0xA8, 0x00].getD ((i - 0x202) % 4) 0
    else if 576 ≤ i ∧ i < 590 then rock26Sig.getD (i - 576) 0
    else if i = 592 then 1
    else if 620 ≤ i ∧ i < 624 then [0x0A, 0x0B, 0x0C, 0x0D].getD (i - 620) 0
    else if 644 ≤ i ∧ i < 648 then [0x0A, 0x0B, 0x0C, 0x0D].getD (i - 644) 0
    else if 656 ≤ i ∧ i < 663 then [66, 48, 48, 46, 66, 77, 80].getD (i - 656) 0
    else 0⟩

/-! Basic lemmas about the buffer primitives. -/

theorem writeBytes_len (b : Buf) (off : Nat) (bs : List Nat) :
    (writeBytes b off bs).len = b.len := rfl

theorem writeBytes_get_lo (b : Buf) (off : Nat) (bs : List Nat) (i : Nat)
    (h : i < off) : (writeBytes b off bs).get i = b.get i := by
  simp only [writeBytes]
  rw [if_neg]
  omega

theorem writeBytes_get_hi (b : Buf) (off : Nat) (bs : List Nat) (i : Nat)
    (h : off + bs.length ≤ i) : (writeBytes b off bs).get i = b.get i := by
  simp only [writeBytes]
  rw [if_neg]
  omega

theorem writeBytes_get_in (b : Buf) (off : Nat) (bs : List Nat) (i : Nat)
    (h1 : off ≤ i) (h2 : i < off + bs.length) :
    (writeBytes b off bs).get i = bs.getD (i - off) 0 := by
  simp only [writeBytes]
  rw [if_pos ⟨h1, h2⟩]

theorem resize_len (b : Buf) (n : Nat) : (b.resize n).len = n := rfl

theorem resize_get (b : Buf) (n i : Nat) :
    (b.resize n).get i = if i < b.len ∧ i < n then b.get i else 0 := rfl

theorem sliceBytes_length (b : Buf) (off n : Nat) : (sliceBytes b off n).length = n := by
  simp [sliceBytes]

theorem sliceBytes_getD (b : Buf) (off n k : Nat) (h : k < n) :
    (sliceBytes b off n).getD k 0 = rd b (off + k) := by
  simp [sliceBytes, List.getD_eq_getElem?_getD, List.getElem?_map, List.getElem?_range, h]

theorem u32Bytes_length (v : Nat) : (u32Bytes v).length = 4 := rfl

theorem readU32_lt (b : Buf) (off : Nat) : readU32 b off < 4294967296 := by
  have h0 : rd b off < 256 := Nat.mod_lt _ (by norm_num)
  have h1 : rd b (off + 1) < 256 := Nat.mod_lt _ (by norm_num)
  have h2 : rd b (off + 2) < 256 := Nat.mod_lt _ (by norm_num)
  have h3 : rd b (off + 3) < 256 := Nat.mod_lt _ (by norm_num)
  simp only [readU32]
  omega

/-- Reading back a packed 32-bit value recovers it. -/
theorem readU32_writeU32 (b : Buf) (off v : Nat) (hv : v < 4294967296) :
    readU32 (writeBytes b off (u32Bytes v)) off = v := by
  have hlen : (u32Bytes v).length = 4 := rfl
  have g : ∀ k, k < 4 → (writeBytes b off (u32Bytes v)).get (off + k) = (u32Bytes v).getD k 0 := by
    intro k hk
    rw [writeBytes_get_in b off (u32Bytes v) (off + k) (by omega) (by rw [hlen]; omega)]
    congr 1
    omega
  have e0 := g 0 (by norm_num)
  have e1 := g 1 (by norm_num)
  have e2 := g 2 (by norm_num)
  have e3 := g 3 (by norm_num)
  simp only [Nat.add_zero] at e0
  simp only [readU32, rd]
  rw [e0, e1, e2, e3]
  simp only [u32Bytes, List.getD_cons_zero, List.getD_cons_succ]
  have m0 : v % 256 % 256 = v % 256 := Nat.mod_mod_of_dvd _ (dvd_refl 256)
  have m1 : v / 256 % 256 % 256 = v / 256 % 256 := Nat.mod_mod_of_dvd _ (dvd_refl 256)
  have m2 : v / 65536 % 256 % 256 = v / 65536 % 256 := Nat.mod_mod_of_dvd _ (dvd_refl 256)
  have m3 : v / 16777216 % 256 % 256 = v / 16777216 % 256 := Nat.mod_mod_of_dvd _ (dvd_refl 256)
  rw [m0, m1, m2, m3]
  have hv3 : v / 16777216 < 256 := by omega
  have hd : v / 16777216 % 256 = v / 16777216 := Nat.mod_eq_of_lt hv3
  have s1 := Nat.div_add_mod v 256
  have s2 := Nat.div_add_mod (v / 256) 256
  have s3 := Nat.div_add_mod (v / 65536) 256
  have e12 : v / 256 / 256 = v / 65536 := by rw [Nat.div_div_eq_div_mul]
  have e23 : v / 65536 / 256 = v / 16777216 := by rw [Nat.div_div_eq_div_mul]
  rw [e12] at s2
  rw [e23] at s3
  omega

theorem writeBytes_get_out (b : Buf) (off : Nat) (bs : List Nat) (i : Nat)
    (h : ¬(off ≤ i ∧ i < off + bs.length)) : (writeBytes b off bs).get i = b.get i := by
  simp only [writeBytes]
  rw [if_neg h]

theorem rd_lt (b : Buf) (i : Nat) : rd b i < 256 := Nat.mod_lt _ (by norm_num)

theorem rd_mod (b : Buf) (i : Nat) : rd b i % 256 = rd b i := Nat.mod_eq_of_lt (rd_lt b i)

theorem readU32_congr (b1 b2 : Buf) (off : Nat)
    (h : ∀ k, k < 4 → b1.get (off + k) = b2.get (off + k)) :
    readU32 b1 off = readU32 b2 off := by
  have e0 := h 0 (by norm_num)
  have e1 := h 1 (by norm_num)
  have e2 := h 2 (by norm_num)
  have e3 := h 3 (by norm_num)
  simp only [Nat.add_zero] at e0
  simp only [readU32, rd, e0, e1, e2, e3]

/-! Arithmetic facts about the rounding used by the integrity fixer. -/

theorem roundup_ge (x a : Nat) (ha : 0 < a) : x ≤ ((x + (a - 1)) / a) * a := by
  have h := Nat.div_add_mod (x + (a - 1)) a
  have hr : (x + (a - 1)) % a < a := Nat.mod_lt _ ha
  have h' : ((x + (a - 1)) / a) * a = a * ((x + (a - 1)) / a) := Nat.mul_comm _ _
  rw [h']
  omega

theorem roundup_succ_ge (x a : Nat) (ha : 0 < a) : x + 1 ≤ ((x + a) / a) * a := by
  have h := Nat.div_add_mod (x + a) a
  have hr : (x + a) % a < a := Nat.mod_lt _ ha
  have h' : ((x + a) / a) * a = a * ((x + a) / a) := Nat.mul_comm _ _
  rw [h']
  omega

theorem roundup_big (x a : Nat) (ha : 0 < a) : a ≤ ((x + a) / a) * a := by
  have h1 : 1 ≤ (x + a) / a := by
    rw [Nat.le_div_iff_mul_le ha]
    omega
  calc a = 1 * a := (Nat.one_mul a).symm
  _ ≤ ((x + a) / a) * a := Nat.mul_le_mul_right a h1

theorem fwSizeOf_ge (b : Buf) : newFwEnd b + 16385 ≤ fwSizeOf b := by
  have := roundup_succ_ge (newFwEnd b + 16384) 0x100000 (by norm_num)
  simp only [fwSizeOf]
  omega

theorem fwSizeOf_big (b : Buf) : 0x100000 ≤ fwSizeOf b := by
  have := roundup_big (newFwEnd b + 16384) 0x100000 (by norm_num)
  simp only [fwSizeOf]
  omega

theorem newFwEnd_ge_p5end (b : Buf) : p5end b ≤ newFwEnd b := by
  unfold newFwEnd
  split
  · have := roundup_ge (p5end b) 0x10000 (by norm_num)
    simpa using this
  · omega

/-! Pointwise characterization of `fixIntegrity`. -/

theorem fixIntegrity_len (b : Buf) : (fixIntegrity b).len = neededSize b := rfl

theorem fixB1_len (b : Buf) : (fixB1 b).len = b.len := by
  unfold fixB1
  split <;> rfl

theorem fixB1_get (b : Buf) (i : Nat) :
    (fixB1 b).get i =
      if readU32 b 0x1F4 < p5end b ∧ 0x1F4 ≤ i ∧ i < 0x1F8 then
        (u32Bytes (newFwEnd b)).getD (i - 0x1F4) 0
      else b.get i := by
  unfold fixB1
  by_cases hc : readU32 b 0x1F4 < p5end b
  · rw [if_pos hc]
    by_cases hi : 0x1F4 ≤ i ∧ i < 0x1F8
    · rw [writeBytes_get_in _ _ _ _ hi.1 (by rw [u32Bytes_length]; omega)]
      rw [if_pos ⟨hc, hi⟩]
    · rw [writeBytes_get_out _ _ _ _ (by rw [u32Bytes_length]; omega)]
      rw [if_neg (by tauto)]
  · rw [if_neg hc, if_neg (by tauto)]

theorem fixB2_get (b : Buf) (i : Nat) :
    (fixB2 b).get i =
      if i < b.len ∧ i < neededSize b then (fixB1 b).get i else 0 := by
  simp only [fixB2, resize_get, fixB1_len]

theorem fixIntegrity_get (b : Buf) (i : Nat) :
    (fixIntegrity b).get i =
      if fwSizeOf b ≤ i ∧ i < fwSizeOf b + 4 then rd b (b.len - 4 + (i - fwSizeOf b))
      else if newFwEnd b ≤ i ∧ i < newFwEnd b + 512 then rd (fixB2 b) (i - newFwEnd b)
      else (fixB2 b).get i := by
  have hsz : neededSize b - 4 = fwSizeOf b := by simp [neededSize]
  simp only [fixIntegrity, fixB3, hsz]
  by_cases h1 : fwSizeOf b ≤ i ∧ i < fwSizeOf b + 4
  · rw [writeBytes_get_in _ _ _ _ h1.1 (by rw [sliceBytes_length]; omega)]
    rw [sliceBytes_getD _ _ _ _ (by omega), if_pos h1]
  · rw [writeBytes_get_out _ _ _ _ (by rw [sliceBytes_length]; omega), if_neg h1]
    by_cases h2 : newFwEnd b ≤ i ∧ i < newFwEnd b + 512
    · rw [writeBytes_get_in _ _ _ _ h2.1 (by rw [sliceBytes_length]; omega)]
      rw [sliceBytes_getD _ _ _ _ (by omega), if_pos h2]
      simp
    · rw [writeBytes_get_out _ _ _ _ (by rw [sliceBytes_length]; omega), if_neg h2]

theorem fix_get_head (b : Buf) (i : Nat) (hfw : 512 ≤ newFwEnd b) (hi : i < 512)
    (hlen : 512 ≤ b.len) : (fixIntegrity b).get i = (fixB1 b).get i := by
  have h1 := fwSizeOf_big b
  rw [fixIntegrity_get]
  rw [if_neg (by omega), if_neg (by omega), fixB2_get]
  rw [if_pos ⟨by omega, by simp only [neededSize]; omega⟩]

theorem fix_get_copy (b : Buf) (k : Nat) (hk : k < 512) :
    (fixIntegrity b).get (newFwEnd b + k) = rd (fixB2 b) k := by
  have h1 := fwSizeOf_ge b
  rw [fixIntegrity_get]
  rw [if_neg (by omega), if_pos (by omega)]
  congr 1
  omega

theorem fix_get_trailer (b : Buf) (k : Nat) (hk : k < 4) :
    (fixIntegrity b).get (fwSizeOf b + k) = rd b (b.len - 4 + k) := by
  have h1 := fwSizeOf_ge b
  rw [fixIntegrity_get]
  rw [if_pos (by omega)]
  congr 1
  omega

theorem fix_get_rest (b : Buf) (i : Nat) (hfw1 : ¬(fwSizeOf b ≤ i ∧ i < fwSizeOf b + 4))
    (hfw2 : ¬(newFwEnd b ≤ i ∧ i < newFwEnd b + 512)) :
    (fixIntegrity b).get i = (fixB2 b).get i := by
  rw [fixIntegrity_get, if_neg hfw1, if_neg hfw2]

/-! Consequences of one run of the fixer, under the side conditions that the
buffer bears the magic, that the 32-bit pack does not overflow, and that the
recomputed boot pointer does not collide with the 512-byte header itself. -/

theorem hasMagicB_len (b : Buf) (hb : hasMagicB b = true) : 0x200 ≤ b.len := by
  simp only [hasMagicB, Bool.and_eq_true, decide_eq_true_eq, beq_iff_eq] at hb
  exact hb.1.1.1.1.1.1.1.1

theorem newFwEnd_lt (b : Buf) (hov : overflowB b = false) : newFwEnd b < 4294967296 := by
  simp only [overflowB, decide_eq_false_iff_not, not_le] at hov
  exact hov

/-- After `fix`, the stored boot pointer at 0x1F4 is exactly the recomputed
pointer, provided the header copy did not overlap the header area. -/
theorem fix_stored_fwEnd (b : Buf) (hlen : 0x200 ≤ b.len) (hov : overflowB b = false)
    (hfw : 512 ≤ newFwEnd b) : readU32 (fixIntegrity b) 0x1F4 = newFwEnd b := by
  have hcg : readU32 (fixIntegrity b) 0x1F4 = readU32 (fixB1 b) 0x1F4 := by
    apply readU32_congr
    intro k hk
    exact fix_get_head b (0x1F4 + k) hfw (by omega) hlen
  rw [hcg]
  by_cases hc : readU32 b 0x1F4 < p5end b
  · have : fixB1 b = writeBytes b 0x1F4 (u32Bytes (newFwEnd b)) := by
      unfold fixB1
      rw [if_pos hc]
    rw [this, readU32_writeU32 _ _ _ (newFwEnd_lt b hov)]
  · have : fixB1 b = b := by
      unfold fixB1
      rw [if_neg hc]
    rw [this]
    unfold newFwEnd
    rw [if_neg hc]

/-- Bytes of the first 512 below 0x1F4 or at/after 0x1F8 are untouched by `fix`. -/
theorem fix_get_head_skip (b : Buf) (i : Nat) (hfw : 512 ≤ newFwEnd b) (hi : i < 512)
    (hlen : 512 ≤ b.len) (hskip : ¬(0x1F4 ≤ i ∧ i < 0x1F8)) :
    (fixIntegrity b).get i = b.get i := by
  rw [fix_get_head b i hfw hi hlen, fixB1_get, if_neg (by tauto)]

theorem fix_magic (b : Buf) (hb : hasMagicB b = true) (hfw : 512 ≤ newFwEnd b) :
    hasMagicB (fixIntegrity b) = true := by
  have hlen := hasMagicB_len b hb
  have hbig := fwSizeOf_big b
  have hget : ∀ i, 0x1F8 ≤ i → i < 0x200 → rd (fixIntegrity b) i = rd b i := by
    intro i h1 h2
    unfold rd
    rw [fix_get_head_skip b i hfw (by omega) hlen (by omega)]
  simp only [hasMagicB, Bool.and_eq_true, decide_eq_true_eq, beq_iff_eq] at hb ⊢
  obtain ⟨⟨⟨⟨⟨⟨⟨⟨_, m0⟩, m1⟩, m2⟩, m3⟩, m4⟩, m5⟩, m6⟩, m7⟩ := hb
  refine ⟨⟨⟨⟨⟨⟨⟨⟨?_, ?_⟩, ?_⟩, ?_⟩, ?_⟩, ?_⟩, ?_⟩, ?_⟩, ?_⟩
  · rw [fixIntegrity_len]
    simp only [neededSize]
    omega
  all_goals rw [hget _ (by norm_num) (by norm_num)]
  · exact m0
  · exact m1
  · exact m2
  · exact m3
  · exact m4
  · exact m5
  · exact m6
  · exact m7

theorem fix_p5end (b : Buf) (hfw : 512 ≤ newFwEnd b) (hlen : 512 ≤ b.len) :
    p5end (fixIntegrity b) = p5end b := by
  unfold p5end
  have h1 : readU32 (fixIntegrity b) 0x14C = readU32 b 0x14C := by
    apply readU32_congr
    intro k hk
    exact fix_get_head_skip b (0x14C + k) hfw (by omega) hlen (by omega)
  have h2 : readU32 (fixIntegrity b) 0x150 = readU32 b 0x150 := by
    apply readU32_congr
    intro k hk
    exact fix_get_head_skip b (0x150 + k) hfw (by omega) hlen (by omega)
  rw [h1, h2]

/-- The second run of the fixer sees a stored pointer already at or past the
partition end, so it takes the no-update branch. -/
theorem fix_second_nogrow (b : Buf) (hb : hasMagicB b = true) (hov : overflowB b = false)
    (hfw : 512 ≤ newFwEnd b) :
    ¬(readU32 (fixIntegrity b) 0x1F4 < p5end (fixIntegrity b)) := by
  have hlen := hasMagicB_len b hb
  rw [fix_stored_fwEnd b hlen hov hfw, fix_p5end b hfw hlen]
  have := newFwEnd_ge_p5end b
  omega

theorem fix_newFwEnd (b : Buf) (hb : hasMagicB b = true) (hov : overflowB b = false)
    (hfw : 512 ≤ newFwEnd b) : newFwEnd (fixIntegrity b) = newFwEnd b := by
  have h := fix_second_nogrow b hb hov hfw
  unfold newFwEnd
  rw [if_neg h]
  exact fix_stored_fwEnd b (hasMagicB_len b hb) hov hfw

theorem fix_overflow (b : Buf) (hb : hasMagicB b = true) (hov : overflowB b = false)
    (hfw : 512 ≤ newFwEnd b) : overflowB (fixIntegrity b) = false := by
  simp only [overflowB, decide_eq_false_iff_not, not_le]
  rw [fix_newFwEnd b hb hov hfw]
  exact newFwEnd_lt b hov

theorem fix_neededSize (b : Buf) (hb : hasMagicB b = true) (hov : overflowB b = false)
    (hfw : 512 ≤ newFwEnd b) : neededSize (fixIntegrity b) = neededSize b := by
  simp only [neededSize, fwSizeOf]
  rw [fix_newFwEnd b hb hov hfw]

/-- Running the fixer twice yields the same bytes as running it once. -/
theorem fix_idempotent (b : Buf) (hb : hasMagicB b = true) (hov : overflowB b = false)
    (hfw : 512 ≤ newFwEnd b) : BufEq (fixIntegrity (fixIntegrity b)) (fixIntegrity b) := by
  have hlen := hasMagicB_len b hb
  have hbig := fwSizeOf_big b
  have hge := fwSizeOf_ge b
  have hF := fix_newFwEnd b hb hov hfw
  have hN := fix_neededSize b hb hov hfw
  have hW : fwSizeOf (fixIntegrity b) = fwSizeOf b := by
    simp only [fwSizeOf]
    rw [hF]
  have hylen : (fixIntegrity b).len = neededSize b := fixIntegrity_len b
  have hB1 : fixB1 (fixIntegrity b) = fixIntegrity b := by
    unfold fixB1
    rw [if_neg (fix_second_nogrow b hb hov hfw)]
  constructor
  · rw [fixIntegrity_len, fixIntegrity_len, hN]
  · intro i hi
    rw [fixIntegrity_len, hN] at hi
    by_cases hT : fwSizeOf b ≤ i ∧ i < fwSizeOf b + 4
    · unfold rd
      rw [fixIntegrity_get (fixIntegrity b) i, hW, if_pos hT]
      rw [hylen]
      have harg : neededSize b - 4 + (i - fwSizeOf b) = i := by
        simp only [neededSize]
        omega
      rw [harg, rd_mod]
      rfl
    · by_cases hC : newFwEnd b ≤ i ∧ i < newFwEnd b + 512
      · unfold rd
        rw [fixIntegrity_get (fixIntegrity b) i, hW, hF, if_neg hT, if_pos hC]
        set k := i - newFwEnd b with hk
        have hk512 : k < 512 := by omega
        have lhs1 : rd (fixB2 (fixIntegrity b)) k = rd (fixIntegrity b) k := by
          unfold rd
          rw [fixB2_get, hN, hylen, if_pos ⟨by omega, by omega⟩, hB1]
        rw [lhs1, rd_mod]
        have rhs1 : (fixIntegrity b).get i = rd (fixB2 b) k := by
          have := fix_get_copy b k hk512
          rw [show newFwEnd b + k = i by omega] at this
          exact this
        have l2 : rd (fixIntegrity b) k = rd (fixB2 b) k := by
          unfold rd
          rw [fix_get_head b k hfw hk512 hlen, fixB2_get,
            if_pos ⟨by omega, by simp only [neededSize]; omega⟩]
        rw [l2]
        unfold rd
        rw [rhs1, rd_mod]
        rfl
      · unfold rd
        rw [fixIntegrity_get (fixIntegrity b) i, hW, hF, if_neg hT, if_neg hC]
        rw [fixB2_get, hN, hylen, if_pos ⟨hi, hi⟩, hB1]

/-- The header-copy invariant established by one completed run of the fixer,
under the no-overlap side condition `512 ≤ newFwEnd b`. -/
theorem fix_headerCopy (b : Buf) (hb : hasMagicB b = true) (hov : overflowB b = false)
    (hfw : 512 ≤ newFwEnd b) :
    readU32 (fixIntegrity b) 0x1F4 = newFwEnd b ∧
      readU32 (fixIntegrity b) 0x1F4 + 512 ≤ (fixIntegrity b).len ∧
      ∀ k, k < 512 → rd (fixIntegrity b) (readU32 (fixIntegrity b) 0x1F4 + k) =
        rd (fixIntegrity b) k := by
  have hlen := hasMagicB_len b hb
  have hge := fwSizeOf_ge b
  have hst := fix_stored_fwEnd b hlen hov hfw
  refine ⟨hst, ?_, ?_⟩
  · rw [hst, fixIntegrity_len]
    simp only [neededSize]
    omega
  · intro k hk
    rw [hst]
    have l1 : rd (fixIntegrity b) (newFwEnd b + k) = rd (fixB2 b) k := by
      unfold rd
      rw [fix_get_copy b k hk, rd_mod]
      rfl
    have l2 : rd (fixIntegrity b) k = rd (fixB2 b) k := by
      unfold rd
      rw [fix_get_head b k hfw hk hlen, fixB2_get,
        if_pos ⟨by omega, by simp only [neededSize]; omega⟩]
    rw [l1, l2]

/-- Claim C1 (amended): after `repair` completes, and after the final
integrity-fix step of `apply_theme_patch` completes on a signature-bearing
buffer, the stored boot pointer at 0x1F4 equals the recomputed `fw_end`, the
512 bytes starting there are byte-identical to the first 512 bytes of the
buffer, and `fw_end + 512 ≤ len` — provided the recomputed pointer is at
least 512, so that the header copy cannot overlap the header area itself. -/
theorem claim_c1_theorem :
    (∀ b y, repairFn b = some y → 512 ≤ newFwEnd b →
      readU32 y 0x1F4 = newFwEnd b ∧ readU32 y 0x1F4 + 512 ≤ y.len ∧
        ∀ k, k < 512 → rd y (readU32 y 0x1F4 + k) = rd y k) ∧
    (∀ b y, fixStepGuarded b = some y → hasMagicB b = true → 512 ≤ newFwEnd b →
      readU32 y 0x1F4 = newFwEnd b ∧ readU32 y 0x1F4 + 512 ≤ y.len ∧
        ∀ k, k < 512 → rd y (readU32 y 0x1F4 + k) = rd y k) := by
  constructor
  · intro b y hr hfw
    unfold repairFn at hr
    by_cases h1 : hasMagicB b = false
    · rw [if_pos h1] at hr
      exact absurd hr (by simp)
    · rw [if_neg h1] at hr
      by_cases h2 : overflowB b = true
      · rw [if_pos h2] at hr
        exact absurd hr (by simp)
      · rw [if_neg h2] at hr
        have hy : y = fixIntegrity b := by
          injection hr with h
          exact h.symm
        subst hy
        exact fix_headerCopy b (by simpa using h1) (by simpa using h2) hfw
  · intro b y hr hb hfw
    unfold fixStepGuarded at hr
    rw [if_neg (by simp [hb])] at hr
    by_cases h2 : overflowB b = true
    · rw [if_pos h2] at hr
      exact absurd hr (by simp)
    · rw [if_neg h2] at hr
      by_cases h3 : neededSize b ≠ b.len
      · rw [if_pos h3] at hr
        exact absurd hr (by simp)
      · rw [if_neg h3] at hr
        have hy : y = fixIntegrity b := by
          injection hr with h
          exact h.symm
        subst hy
        exact fix_headerCopy b hb (by simpa using h2) hfw

/-- Claim C1 counterexample: a signed container whose stored boot pointer is
0x100 — the header copy overwrites the header, the stored pointer ends up
as the huge value spelled at offset 0xF4, and the invariant fails. -/
theorem claim_c1_cx :
    hasMagicB c1x = true ∧ repairFn c1x = some (fixIntegrity c1x) ∧
    ¬(readU32 (fixIntegrity c1x) 0x1F4 + 512 ≤ (fixIntegrity c1x).len ∧
      ∀ k, k < 512 → rd (fixIntegrity c1x) (readU32 (fixIntegrity c1x) 0x1F4 + k) =
        rd (fixIntegrity c1x) k) := by
  refine ⟨by decide, ?_, ?_⟩
  · unfold repairFn
    rw [if_neg (by decide), if_neg (by decide)]
  · intro h
    exact absurd h.1 (by decide)

/-- Claim C1 witness: both parts of the amended claim applied to concrete
well-formed containers. -/
theorem claim_c1_witness :
    (readU32 (fixIntegrity w1) 0x1F4 = newFwEnd w1 ∧
      readU32 (fixIntegrity w1) 0x1F4 + 512 ≤ (fixIntegrity w1).len ∧
      ∀ k, k < 512 → rd (fixIntegrity w1) (readU32 (fixIntegrity w1) 0x1F4 + k) =
        rd (fixIntegrity w1) k) ∧
    (readU32 (fixIntegrity w1b) 0x1F4 = newFwEnd w1b ∧
      readU32 (fixIntegrity w1b) 0x1F4 + 512 ≤ (fixIntegrity w1b).len ∧
      ∀ k, k < 512 → rd (fixIntegrity w1b) (readU32 (fixIntegrity w1b) 0x1F4 + k) =
        rd (fixIntegrity w1b) k) := by
  constructor
  · refine claim_c1_theorem.1 w1 (fixIntegrity w1) ?_ (by decide)
    unfold repairFn
    rw [if_neg (by decide), if_neg (by decide)]
  · refine claim_c1_theorem.2 w1b (fixIntegrity w1b) ?_ (by decide) (by decide)
    unfold fixStepGuarded
    rw [if_neg (by decide), if_neg (by decide), if_neg (by decide)]

/-- Claim C2 (amended): `repair` is idempotent — `repair (repair x)` succeeds
and returns byte-for-byte the same buffer as `repair x` — for signed
containers whose recomputed boot pointer is at least 512 (counterexample
`claim_c2_cx` shows the restriction is needed: a pointer inside the header
lets the header copy destroy the signature, so the second `repair` refuses
to load at all). -/
theorem claim_c2_theorem (b : Buf) (hb : hasMagicB b = true) (hov : overflowB b = false)
    (hfw : 512 ≤ newFwEnd b) :
    optionBufEq ((repairFn b).bind repairFn) (repairFn b) := by
  have h1 : repairFn b = some (fixIntegrity b) := by
    unfold repairFn
    rw [if_neg (by simp [hb]), if_neg (by simp [hov])]
  have h2 : repairFn (fixIntegrity b) = some (fixIntegrity (fixIntegrity b)) := by
    unfold repairFn
    rw [if_neg (by simp [fix_magic b hb hfw]), if_neg (by simp [fix_overflow b hb hov hfw])]
  rw [h1]
  rw [Option.some_bind]
  rw [h2]
  exact fix_idempotent b hb hov hfw

/-- Claim C2 counterexample: on `c2x` the first `repair` succeeds but destroys
the magic, so the second `repair` fails to load and the composition differs
from the single run. -/
theorem claim_c2_cx :
    hasMagicB c2x = true ∧ overflowB c2x = false ∧
    ¬ optionBufEq ((repairFn c2x).bind repairFn) (repairFn c2x) := by
  refine ⟨by decide, by decide, ?_⟩
  have h1 : repairFn c2x = some (fixIntegrity c2x) := by
    unfold repairFn
    rw [if_neg (by decide), if_neg (by decide)]
  have h2 : repairFn (fixIntegrity c2x) = none := by
    unfold repairFn
    rw [if_pos (by decide)]
  rw [h1]
  rw [Option.some_bind]
  rw [h2]
  simp [optionBufEq]

/-- Claim C2 witness: the amended idempotence applied to `w1`. -/
theorem claim_c2_witness :
    hasMagicB w1 = true ∧ overflowB w1 = false ∧ 512 ≤ newFwEnd w1 ∧
    optionBufEq ((repairFn w1).bind repairFn) (repairFn w1) :=
  ⟨by decide, by decide, by decide, claim_c2_theorem w1 (by decide) (by decide) (by decide)⟩

/-! Claim C8: the one-byte-short boot pointer scenario. -/

theorem claim_c8_aux_align (b : Buf) :
    512 ≤ ((p5end b + 0xFFFF) / 0x10000) * 0x10000 ∨ p5end b = 0 := by
  by_cases h : p5end b = 0
  · exact Or.inr h
  · left
    have h1 : p5end b ≤ ((p5end b + 0xFFFF) / 0x10000) * 0x10000 := by
      have := roundup_ge (p5end b) 0x10000 (by norm_num)
      simpa using this
    rcases Nat.eq_zero_or_pos ((p5end b + 0xFFFF) / 0x10000) with hq | hq
    · rw [hq] at h1
      omega
    · have : 1 * 0x10000 ≤ ((p5end b + 0xFFFF) / 0x10000) * 0x10000 :=
        Nat.mul_le_mul_right _ hq
      omega

/-- Claim C8 (amended): on a signed container whose stored boot pointer is one
byte short of the true partition end, `repair` stores the partition end
rounded up to the next 64KiB boundary — a 64KiB-aligned value at least the
true end, strictly greater exactly when the true end is unaligned (the
original claim's unconditional strictness fails on aligned ends, see
`claim_c8_cx`) — and the output length is the boot pointer plus 16384 rounded
up to the next 1MiB boundary plus 4, hence a multiple of 1MiB plus 4. -/
theorem claim_c8_theorem (b : Buf) (hb : hasMagicB b = true) (hov : overflowB b = false)
    (he : readU32 b 0x1F4 + 1 = p5end b) :
    readU32 (fixIntegrity b) 0x1F4 = ((p5end b + 0xFFFF) / 0x10000) * 0x10000 ∧
    ((p5end b + 0xFFFF) / 0x10000) * 0x10000 % 0x10000 = 0 ∧
    p5end b ≤ ((p5end b + 0xFFFF) / 0x10000) * 0x10000 ∧
    (p5end b % 0x10000 ≠ 0 → p5end b < ((p5end b + 0xFFFF) / 0x10000) * 0x10000) ∧
    (fixIntegrity b).len =
      ((((p5end b + 0xFFFF) / 0x10000) * 0x10000 + 16384 + 0x100000) / 0x100000) * 0x100000
        + 4 ∧
    (fixIntegrity b).len % 0x100000 = 4 := by
  have hc : readU32 b 0x1F4 < p5end b := by omega
  have hFdef : newFwEnd b = ((p5end b + 0xFFFF) / 0x10000) * 0x10000 := by
    unfold newFwEnd
    rw [if_pos hc]
  have hfw : 512 ≤ newFwEnd b := by
    rcases claim_c8_aux_align b with h | h
    · omega
    · omega
  have hround : p5end b ≤ ((p5end b + 0xFFFF) / 0x10000) * 0x10000 := by
    have := roundup_ge (p5end b) 0x10000 (by norm_num)
    simpa using this
  have halign : ((p5end b + 0xFFFF) / 0x10000) * 0x10000 % 0x10000 = 0 :=
    Nat.mul_mod_left _ _
  refine ⟨?_, halign, hround, ?_, ?_, ?_⟩
  · rw [fix_stored_fwEnd b (hasMagicB_len b hb) hov hfw, hFdef]
  · intro hne
    rcases Nat.lt_or_ge (p5end b) (((p5end b + 0xFFFF) / 0x10000) * 0x10000) with h | h
    · exact h
    · have heq : p5end b = ((p5end b + 0xFFFF) / 0x10000) * 0x10000 := by omega
      rw [heq] at hne
      exact absurd halign hne
  · rw [fixIntegrity_len]
    simp only [neededSize, fwSizeOf, hFdef]
  · rw [fixIntegrity_len]
    simp only [neededSize, fwSizeOf]
    omega

/-- Claim C8 counterexample: partition end exactly 0x10000, stored pointer
0xFFFF — the repaired pointer equals the partition end, so it is not strictly
greater as the claim demands. -/
theorem claim_c8_cx :
    hasMagicB c8x = true ∧ readU32 c8x 0x1F4 + 1 = p5end c8x ∧ overflowB c8x = false ∧
    ¬(p5end c8x < readU32 (fixIntegrity c8x) 0x1F4) := by
  refine ⟨by decide, by decide, by decide, ?_⟩
  intro h
  exact absurd h (by decide)

/-- Claim C8 witness: the amended claim applied to an unaligned partition end. -/
theorem claim_c8_witness :
    readU32 (fixIntegrity w8) 0x1F4 = ((p5end w8 + 0xFFFF) / 0x10000) * 0x10000 ∧
    ((p5end w8 + 0xFFFF) / 0x10000) * 0x10000 % 0x10000 = 0 ∧
    p5end w8 ≤ ((p5end w8 + 0xFFFF) / 0x10000) * 0x10000 ∧
    (p5end w8 % 0x10000 ≠ 0 → p5end w8 < ((p5end w8 + 0xFFFF) / 0x10000) * 0x10000) ∧
    (fixIntegrity w8).len =
      ((((p5end w8 + 0xFFFF) / 0x10000) * 0x10000 + 16384 + 0x100000) / 0x100000) * 0x100000
        + 4 ∧
    (fixIntegrity w8).len % 0x100000 = 4 :=
  claim_c8_theorem w8 (by decide) (by decide) (by decide)

/-! Claims C6 and C10: the instruction codec. -/

theorem addwRoundAux :
    ∀ hi, hi < 16 → ∀ lo, lo < 256 →
      decodeAddw (encodeAddwHw (hi * 256 + lo) 0 0).1 (encodeAddwHw (hi * 256 + lo) 0 0).2 =
        hi * 256 + lo := by decide

/-- Claim C6: for all `imm12 < 4096`, decoding the two halfwords produced by
`_encode_addw(imm12, rd=0, rn=0)` yields `imm12` back. -/
theorem claim_c6_theorem (imm12 : Nat) (h : imm12 < 4096) :
    decodeAddw (encodeAddwHw imm12 0 0).1 (encodeAddwHw imm12 0 0).2 = imm12 := by
  have h1 : imm12 / 256 < 16 := by omega
  have h2 : imm12 % 256 < 256 := Nat.mod_lt _ (by norm_num)
  have h3 := addwRoundAux (imm12 / 256) h1 (imm12 % 256) h2
  have e : imm12 / 256 * 256 + imm12 % 256 = imm12 := by
    have := Nat.div_add_mod imm12 256
    omega
  rw [e] at h3
  exact h3

/-- Claim C6 witness at `imm12 = 1496` (the largest immediate the patch writes). -/
theorem claim_c6_witness :
    decodeAddw (encodeAddwHw 1496 0 0).1 (encodeAddwHw 1496 0 0).2 = 1496 :=
  claim_c6_theorem 1496 (by decide)

theorem addwMaskAux :
    ∀ hi, hi < 16 → ∀ lo, lo < 256 →
      maskOkAddw
        ((encodeAddwHw (hi * 256 + lo) 0 0).1 % 256 +
          256 * ((encodeAddwHw (hi * 256 + lo) 0 0).1 / 256 % 256))
        ((encodeAddwHw (hi * 256 + lo) 0 0).2 % 256 +
          256 * ((encodeAddwHw (hi * 256 + lo) 0 0).2 / 256 % 256)) = true := by decide

/-- Claim C10: writing the four bytes of `_encode_addw(imm12, 0, 0)` anywhere
in a buffer and reading them back as two little-endian halfwords satisfies
the detector's ADDW recognition mask, so every instruction the patch writes
is recognized again by a later detector run. -/
theorem claim_c10_theorem (b : Buf) (s imm12 : Nat) (h : imm12 < 4096) :
    maskOkAddw (readU16 (writeBytes b s (encodeAddwBytes imm12 0 0)) s)
      (readU16 (writeBytes b s (encodeAddwBytes imm12 0 0)) (s + 2)) = true := by
  have hlen : (encodeAddwBytes imm12 0 0).length = 4 := rfl
  have g : ∀ k, k < 4 →
      (writeBytes b s (encodeAddwBytes imm12 0 0)).get (s + k) =
        (encodeAddwBytes imm12 0 0).getD k 0 := by
    intro k hk
    rw [writeBytes_get_in b s _ (s + k) (by omega) (by rw [hlen]; omega)]
    congr 1
    omega
  have e0 := g 0 (by norm_num)
  have e1 := g 1 (by norm_num)
  have e2 := g 2 (by norm_num)
  have e3 := g 3 (by norm_num)
  simp only [Nat.add_zero] at e0
  have hr : readU16 (writeBytes b s (encodeAddwBytes imm12 0 0)) s =
      (encodeAddwHw imm12 0 0).1 % 256 + 256 * ((encodeAddwHw imm12 0 0).1 / 256 % 256) := by
    simp only [readU16, rd]
    rw [e0, e1]
    simp only [encodeAddwBytes, List.getD_cons_zero, List.getD_cons_succ]
    rw [Nat.mod_mod_of_dvd _ (dvd_refl 256), Nat.mod_mod_of_dvd _ (dvd_refl 256)]
  have hr2 : readU16 (writeBytes b s (encodeAddwBytes imm12 0 0)) (s + 2) =
      (encodeAddwHw imm12 0 0).2 % 256 + 256 * ((encodeAddwHw imm12 0 0).2 / 256 % 256) := by
    simp only [readU16, rd]
    rw [show s + 2 + 1 = s + 3 by omega]
    rw [e2, e3]
    simp only [encodeAddwBytes, List.getD_cons_zero, List.getD_cons_succ]
    rw [Nat.mod_mod_of_dvd _ (dvd_refl 256), Nat.mod_mod_of_dvd _ (dvd_refl 256)]
  rw [hr, hr2]
  have h1 : imm12 / 256 < 16 := by omega
  have h2 : imm12 % 256 < 256 := Nat.mod_lt _ (by norm_num)
  have h3 := addwMaskAux (imm12 / 256) h1 (imm12 % 256) h2
  have e : imm12 / 256 * 256 + imm12 % 256 = imm12 := by
    have := Nat.div_add_mod imm12 256
    omega
  rw [e] at h3
  exact h3

/-- Claim C10 witness at the first immediate the patch writes (374) at offset
0x202 of `w1`. -/
theorem claim_c10_witness :
    maskOkAddw (readU16 (writeBytes w1 0x202 (encodeAddwBytes 374 0 0)) 0x202)
      (readU16 (writeBytes w1 0x202 (encodeAddwBytes 374 0 0)) (0x202 + 2)) = true :=
  claim_c10_theorem w1 0x202 374 (by decide)

/-- Claim C4: when the detector reports the patched compare literal
(`is_patched = true`), `patch_for_themed_boots` returns before any mutation:
the buffer is the very same one and the already-patched state is reported. -/
theorem claim_c4_theorem (b : Buf) (P : ParseResult) (info : PatchInfo)
    (hp : parse b = some P) (hd : detectPatchInfo b P.rock26Count = .ok info)
    (hip : info.isPatched = true) :
    patchForThemedBoots b = some ⟨b, true⟩ := by
  simp only [patchForThemedBoots, hp, hd, hip, if_true]

/-- Claim C4 witness: the already-patched container `bufPatched` is returned
untouched. -/
theorem claim_c4_witness :
    patchForThemedBoots bufPatched = some ⟨bufPatched, true⟩ :=
  claim_c4_theorem bufPatched bufPatchedParse bufPatchedInfo (by decide) (by rfl) (by rfl)

/-! Claim C9: detector failure modes. -/

/-- Specification of the outer compare scan when it reports a hit: the hit
qualifies, lies in the scanned window, and is the first qualifying position
in ascending address order. -/
theorem findCmp_found_spec (b : Buf) (bound : Nat) :
    ∀ fuel off o, findCmp b bound fuel off = .found o →
      qualifiesB b o = true ∧ off ≤ o ∧ o < bound ∧ (o - off) % 2 = 0 ∧
        ∀ o', off ≤ o' → o' < o → (o' - off) % 2 = 0 → qualifiesB b o' = false := by
  intro fuel
  induction fuel with
  | zero =>
    intro off o h
    simp [findCmp] at h
  | succ n ih =>
    intro off o h
    simp only [findCmp] at h
    by_cases h1 : off < bound
    · rw [if_pos h1] at h
      by_cases h2 : b.len < off + 2
      · rw [if_pos h2] at h
        simp at h
      · rw [if_neg h2] at h
        by_cases h3 : qualifiesB b off = true
        · rw [if_pos h3] at h
          have ho : o = off := by
            injection h with h4
            exact h4.symm
          subst ho
          exact ⟨h3, le_refl _, h1, by omega, fun o' ha hb _ => absurd hb (by omega)⟩
        · rw [if_neg h3] at h
          obtain ⟨q1, q2, q3, q4, q5⟩ := ih (off + 2) o h
          refine ⟨q1, by omega, q3, by omega, ?_⟩
          intro o' ha hb hm
          by_cases hcase : o' = off
          · subst hcase
            simpa using h3
          · exact q5 o' (by omega) hb (by omega)
    · rw [if_neg h1] at h
      simp at h

/-- Specification of the outer compare scan when no position qualifies and no
read runs past the end: the scan reports no pattern. -/
theorem findCmp_notFound_of (b : Buf) (bound : Nat) :
    ∀ fuel off,
      (∀ o, off ≤ o → o < bound → (o - off) % 2 = 0 → o + 2 ≤ b.len ∧ qualifiesB b o = false) →
      findCmp b bound fuel off = .notFound := by
  intro fuel
  induction fuel with
  | zero =>
    intro off h
    rfl
  | succ n ih =>
    intro off h
    simp only [findCmp]
    by_cases h1 : off < bound
    · rw [if_pos h1]
      obtain ⟨hl, hq⟩ := h off (le_refl _) h1 (by omega)
      rw [if_neg (by omega), if_neg (by simp [hq])]
      exact ih (off + 2) (fun o ha hb hm => (h o (by omega) hb (by omega)))
    · rw [if_neg h1]

/-- Claim C9 (amended): the detector fails with PatternNotFound when no
scanned position carries a qualifying compare (candidates followed by fewer
than four plausible ADDW immediates are skipped, not fatal); the
IncompletePattern failure is unreachable, because the second collection pass
re-scans the very window whose full scan already produced at least four hits;
and a successful detection reports the first qualifying compare position in
ascending address order. -/
theorem claim_c9_theorem :
    (∀ b rc, detectPatchInfo b rc ≠ .error .incompletePattern) ∧
    (∀ b rc,
      (∀ o, o < min b.len 0x400000 → 0x200 ≤ o → (o - 0x200) % 2 = 0 →
        o + 2 ≤ b.len ∧ qualifiesB b o = false) →
      detectPatchInfo b rc = .error .patternNotFound) ∧
    (∀ b rc info, detectPatchInfo b rc = .ok info →
      qualifiesB b info.cmpOffset = true ∧
        ∀ o, 0x200 ≤ o → o < info.cmpOffset → (o - 0x200) % 2 = 0 →
          qualifiesB b o = false) := by
  refine ⟨?_, ?_, ?_⟩
  · intro b rc
    unfold detectPatchInfo
    cases hfc : findCmp b (min b.len 0x400000) 0x400000 0x200 with
    | crashed => simp
    | notFound => simp
    | found off =>
      obtain ⟨hq, _⟩ := findCmp_found_spec b _ _ _ _ hfc
      have h4 : 4 ≤ (addwScan b off 40 (off + 2)).length := by
        simp only [qualifiesB, Bool.and_eq_true, decide_eq_true_eq] at hq
        exact hq.2
      simp only [List.length_take]
      rw [if_neg (by omega)]
      simp
  · intro b rc h
    unfold detectPatchInfo
    rw [findCmp_notFound_of b (min b.len 0x400000) 0x400000 0x200
      (fun o ha hb hm => h o hb ha hm)]
  · intro b rc info h
    unfold detectPatchInfo at h
    cases hfc : findCmp b (min b.len 0x400000) 0x400000 0x200 with
    | crashed =>
      rw [hfc] at h
      simp at h
    | notFound =>
      rw [hfc] at h
      simp at h
    | found off =>
      rw [hfc] at h
      obtain ⟨q1, q2, q3, q4, q5⟩ := findCmp_found_spec b _ _ _ _ hfc
      have h4 : 4 ≤ (addwScan b off 40 (off + 2)).length := by
        simp only [qualifiesB, Bool.and_eq_true, decide_eq_true_eq] at q1
        exact q1.2
      simp only [List.length_take] at h
      rw [if_neg (by omega)] at h
      have hoff : info.cmpOffset = off := by
        injection h with h2
        rw [← h2]
      rw [hoff]
      exact ⟨q1, fun o ha hb hm => q5 o ha hb (by omega)⟩

/-- Claim C9 counterexample: a container with a compare candidate whose
window has no ADDW at all fails with PatternNotFound (the scan skips the
incomplete candidate), not with IncompletePattern as the claim states. -/
theorem claim_c9_cx :
    readU16 c9cx 0x200 = 0x2843 ∧ (addwScan c9cx 0x200 40 0x202).length < 4 ∧
    detectPatchInfo c9cx 0 = .error .patternNotFound ∧
    detectPatchInfo c9cx 0 ≠ .error .incompletePattern := by
  refine ⟨by decide, by decide, by rfl, ?_⟩
  intro h
  have h2 : (Except.error DetectErr.patternNotFound : Except DetectErr PatchInfo) =
      .error .incompletePattern := by
    rw [← (by rfl : detectPatchInfo c9cx 0 =
      (.error .patternNotFound : Except DetectErr PatchInfo))]
    exact h
  injection h2 with h3
  exact absurd h3 (by decide)

/-- Claim C9 witness: the empty-window container fails with PatternNotFound,
and detection on the patched container reports its first qualifying compare. -/
theorem claim_c9_witness :
    detectPatchInfo c9w 0 = .error .patternNotFound ∧
    (qualifiesB bufPatched (bufPatchedInfo.cmpOffset) = true ∧
      ∀ o, 0x200 ≤ o → o < bufPatchedInfo.cmpOffset → (o - 0x200) % 2 = 0 →
        qualifiesB bufPatched o = false) := by
  constructor
  · exact claim_c9_theorem.2.1 c9w 0 (by decide)
  · exact claim_c9_theorem.2.2 bufPatched 1 bufPatchedInfo (by rfl)


/-! Claims C5 and C7: the table expansion. -/

theorem sliceP5_length (b : Buf) (p5off off n : Nat) : (sliceP5 b p5off off n).length = n := by
  simp [sliceP5]

theorem getD_map_range {α : Type} (f : Nat → α) (n i : Nat) (d : α) (h : i < n) :
    ((List.range n).map f).getD i d = f i := by
  rw [List.getD_eq_getElem _ _ (by simp [h])]
  simp

theorem themeR26_length (b : Buf) (p5off r26start oc S OB t : Nat) :
    (themeR26 b p5off r26start oc S OB t).length = S + OB := by
  simp [themeR26]

theorem themeMeta_length (b : Buf) (p5off : Nat) (entries : List MetaEntry) (S OB t : Nat) :
    (themeMeta b p5off entries S OB t).length = S + OB := by
  simp [themeMeta]

theorem themePairsOf_length (b : Buf) (p5off r26start oc : Nat) (entries : List MetaEntry)
    (S OB t : Nat) : (themePairsOf b p5off r26start oc entries S OB t).length = S + OB := by
  simp [themePairsOf]

theorem themePairsOf_fst (b : Buf) (p5off r26start oc : Nat) (entries : List MetaEntry)
    (S OB t : Nat) :
    (themePairsOf b p5off r26start oc entries S OB t).map Prod.fst =
      themeR26 b p5off r26start oc S OB t := by
  simp only [themePairsOf, themeR26, List.map_append, List.map_map]
  rfl

theorem themePairsOf_snd (b : Buf) (p5off r26start oc : Nat) (entries : List MetaEntry)
    (S OB t : Nat) :
    (themePairsOf b p5off r26start oc entries S OB t).map Prod.snd =
      themeMeta b p5off entries S OB t := by
  simp only [themePairsOf, themeMeta, List.map_append, List.map_map]
  rfl

/-- Claim C5: the expansion step produces resource and metadata tables of
length exactly `5 * (shared_count + old_block_size)` each, and the two tables
are the first and second projections of one lockstep traversal, so entry `i`
of one corresponds to entry `i` of the other for every index. -/
theorem claim_c5_theorem (b : Buf) (p5off r26start oc : Nat) (entries : List MetaEntry)
    (S OB : Nat) (_hS : 1 ≤ S) :
    (newR26 b p5off r26start oc S OB).length = 5 * (S + OB) ∧
    (newMeta b p5off entries S OB).length = 5 * (S + OB) ∧
    newR26 b p5off r26start oc S OB =
      (newPairs b p5off r26start oc entries S OB).map Prod.fst ∧
    newMeta b p5off entries S OB =
      (newPairs b p5off r26start oc entries S OB).map Prod.snd := by
  have h5 : List.range 5 = [0, 1, 2, 3, 4] := rfl
  refine ⟨?_, ?_, ?_, ?_⟩
  · simp only [newR26, h5, List.map_cons, List.map_nil, List.flatten_cons, List.flatten_nil,
      List.length_append, List.length_nil, themeR26_length]
    ring
  · simp only [newMeta, h5, List.map_cons, List.map_nil, List.flatten_cons, List.flatten_nil,
      List.length_append, List.length_nil, themeMeta_length]
    ring
  · simp only [newR26, newPairs, h5, List.map_cons, List.map_nil, List.flatten_cons,
      List.flatten_nil, List.map_append, themePairsOf_fst, List.map_nil]
  · simp only [newMeta, newPairs, h5, List.map_cons, List.map_nil, List.flatten_cons,
      List.flatten_nil, List.map_append, themePairsOf_snd, List.map_nil]

/-- Claim C5 witness: the parallel-array invariant at `S = 1`, `OB = 1`. -/
theorem claim_c5_witness :
    (newR26 c9w 0 0 0 1 1).length = 5 * (1 + 1) ∧
    (newMeta c9w 0 [] 1 1).length = 5 * (1 + 1) ∧
    newR26 c9w 0 0 0 1 1 = (newPairs c9w 0 0 0 [] 1 1).map Prod.fst ∧
    newMeta c9w 0 [] 1 1 = (newPairs c9w 0 0 0 [] 1 1).map Prod.snd :=
  claim_c5_theorem c9w 0 0 0 [] 1 1 (by decide)

theorem newMeta_getD_inTheme (b : Buf) (p5off : Nat) (entries : List MetaEntry)
    (S OB t j : Nat) (ht : t < 5) (hj : j < S + OB) :
    (newMeta b p5off entries S OB).getD (t * (S + OB) + j) [] =
      (themeMeta b p5off entries S OB t).getD j [] := by
  have h5 : List.range 5 = [0, 1, 2, 3, 4] := rfl
  simp only [newMeta, h5, List.map_cons, List.map_nil, List.flatten_cons, List.flatten_nil,
    List.append_nil]
  interval_cases t
  · rw [List.getD_append _ _ _ _ (by rw [themeMeta_length]; omega)]
    norm_num
  · rw [List.getD_append_right _ _ _ _ (by rw [themeMeta_length]; omega)]
    rw [List.getD_append _ _ _ _ (by rw [themeMeta_length, themeMeta_length]; omega)]
    rw [themeMeta_length]
    congr 1
    omega
  · rw [List.getD_append_right _ _ _ _ (by rw [themeMeta_length]; omega)]
    rw [List.getD_append_right _ _ _ _ (by rw [themeMeta_length, themeMeta_length]; omega)]
    rw [List.getD_append _ _ _ _
      (by rw [themeMeta_length, themeMeta_length, themeMeta_length]; omega)]
    rw [themeMeta_length, themeMeta_length]
    congr 1
    omega
  · rw [List.getD_append_right _ _ _ _ (by rw [themeMeta_length]; omega)]
    rw [List.getD_append_right _ _ _ _ (by rw [themeMeta_length, themeMeta_length]; omega)]
    rw [List.getD_append_right _ _ _ _
      (by rw [themeMeta_length, themeMeta_length, themeMeta_length]; omega)]
    rw [List.getD_append _ _ _ _
      (by rw [themeMeta_length, themeMeta_length, themeMeta_length, themeMeta_length]; omega)]
    rw [themeMeta_length, themeMeta_length, themeMeta_length]
    congr 1
    omega
  · rw [List.getD_append_right _ _ _ _ (by rw [themeMeta_length]; omega)]
    rw [List.getD_append_right _ _ _ _ (by rw [themeMeta_length, themeMeta_length]; omega)]
    rw [List.getD_append_right _ _ _ _
      (by rw [themeMeta_length, themeMeta_length, themeMeta_length]; omega)]
    rw [List.getD_append_right _ _ _ _
      (by rw [themeMeta_length, themeMeta_length, themeMeta_length, themeMeta_length]; omega)]
    rw [themeMeta_length, themeMeta_length, themeMeta_length, themeMeta_length]
    congr 1
    omega

theorem themeMeta_getD_shared (b : Buf) (p5off : Nat) (entries : List MetaEntry)
    (S OB t i : Nat) (hi : i < S) :
    (themeMeta b p5off entries S OB t).getD i [] = metaForTheme b p5off entries S t i := by
  unfold themeMeta
  rw [List.getD_append _ _ _ _ (by simp [hi])]
  exact getD_map_range _ _ _ _ hi

theorem sharedMetaRaw_getD_length (b : Buf) (p5off : Nat) (entries : List MetaEntry)
    (S i : Nat) (hi : i < S) :
    ((sharedMetaRaw b p5off entries S).getD i []).length = 108 := by
  unfold sharedMetaRaw
  rw [getD_map_range _ _ _ _ hi, sliceP5_length]

theorem newNameBytes_le (letter : Nat) (orig : List Nat) :
    (newNameBytes letter orig).length ≤ 63 := by
  simp [newNameBytes]

theorem nameField_length (nb : List Nat) (h : nb.length ≤ 64) :
    (nameField nb).length = 64 := by
  simp [nameField]
  omega

/-- Bytes outside the name field are unchanged by the splice. -/
theorem spliceName_outside (raw fld : List Nat) (j : Nat) (h108 : raw.length = 108)
    (h64 : fld.length = 64) (hj : j < 108) (hside : j < 32 ∨ 96 ≤ j) :
    (raw.take 32 ++ fld ++ raw.drop 96).getD j 0 = raw.getD j 0 := by
  have hA : (raw.take 32).length = 32 := by rw [List.length_take]; omega
  have hAB : (raw.take 32 ++ fld).length = 96 := by rw [List.length_append, hA, h64]
  rcases hside with hlo | hhi
  · rw [List.getD_append _ _ _ _ (by rw [hAB]; omega)]
    rw [List.getD_append _ _ _ _ (by rw [hA]; omega)]
    rw [List.getD_eq_getElem _ _ (by rw [hA]; omega)]
    rw [List.getD_eq_getElem _ _ (by omega)]
    rw [List.getElem_take]
  · rw [List.getD_append_right _ _ _ _ (by rw [hAB]; omega)]
    rw [hAB]
    rw [List.getD_eq_getElem _ _ (by rw [List.length_drop]; omega)]
    rw [List.getD_eq_getElem _ _ (by omega)]
    rw [List.getElem_drop]
    congr 1
    omega

/-- Claim C7: during expansion, the shared entry `i` replicated under theme
`t ∈ \x7bB,C,D,E\x7d` carries the original 108 bytes with the 64-byte name field at
sub-offsets [32,96) rewritten to the theme-prefixed name (truncated to 63
bytes, NUL-padded to 64), theme A's copy keeps the original bytes, and every
byte outside [32,96) is unchanged. -/
theorem claim_c7_theorem (b : Buf) (p5off : Nat) (entries : List MetaEntry)
    (S OB t i : Nat) (ht1 : 1 ≤ t) (ht2 : t < 5) (hi : i < S) :
    (newMeta b p5off entries S OB).getD (t * (S + OB) + i) [] =
      ((sharedMetaRaw b p5off entries S).getD i []).take 32 ++
        nameField (newNameBytes (themeLetters.getD t 0) ((entries.getD i default).name)) ++
        ((sharedMetaRaw b p5off entries S).getD i []).drop 96 ∧
    (newMeta b p5off entries S OB).getD i [] = (sharedMetaRaw b p5off entries S).getD i [] ∧
    (∀ j, j < 108 → j < 32 ∨ 96 ≤ j →
      ((newMeta b p5off entries S OB).getD (t * (S + OB) + i) []).getD j 0 =
        ((sharedMetaRaw b p5off entries S).getD i []).getD j 0) := by
  have hsplice : (newMeta b p5off entries S OB).getD (t * (S + OB) + i) [] =
      ((sharedMetaRaw b p5off entries S).getD i []).take 32 ++
        nameField (newNameBytes (themeLetters.getD t 0) ((entries.getD i default).name)) ++
        ((sharedMetaRaw b p5off entries S).getD i []).drop 96 := by
    rw [newMeta_getD_inTheme b p5off entries S OB t i ht2 (by omega)]
    rw [themeMeta_getD_shared b p5off entries S OB t i hi]
    unfold metaForTheme
    rw [if_pos (by omega)]
    rfl
  have hlen108 := sharedMetaRaw_getD_length b p5off entries S i hi
  have hnf : (nameField (newNameBytes (themeLetters.getD t 0)
      ((entries.getD i default).name))).length = 64 :=
    nameField_length _ (le_trans (newNameBytes_le _ _) (by omega))
  refine ⟨hsplice, ?_, ?_⟩
  · have h0 : (0 : Nat) * (S + OB) + i = i := by omega
    have := newMeta_getD_inTheme b p5off entries S OB 0 i (by omega) (by omega)
    rw [h0] at this
    rw [this, themeMeta_getD_shared b p5off entries S OB 0 i hi]
    unfold metaForTheme
    rw [if_neg (by omega)]
  · intro j hj hside
    rw [hsplice]
    exact spliceName_outside _ _ j hlen108 hnf hj hside


/-- Claim C7 witness: metadata name `BOOT_A.BMP` replicated under theme B is
rewritten to `T_B_BOOT_A.BMP` NUL-padded to 64 bytes inside the original
108-byte record. -/
theorem claim_c7_witness :
    ((newMeta b7 0 entries7 1 0).getD (1 * (1 + 0) + 0) [] =
      ((sharedMetaRaw b7 0 entries7 1).getD 0 []).take 32 ++
        nameField (newNameBytes (themeLetters.getD 1 0) ((entries7.getD 0 default).name)) ++
        ((sharedMetaRaw b7 0 entries7 1).getD 0 []).drop 96 ∧
     (newMeta b7 0 entries7 1 0).getD 0 [] = (sharedMetaRaw b7 0 entries7 1).getD 0 [] ∧
     (∀ j, j < 108 → j < 32 ∨ 96 ≤ j →
       ((newMeta b7 0 entries7 1 0).getD (1 * (1 + 0) + 0) []).getD j 0 =
         ((sharedMetaRaw b7 0 entries7 1).getD 0 []).getD j 0)) ∧
    (newMeta b7 0 entries7 1 0).getD 1 [] =
      List.replicate 32 0 ++
        [84, 95, 66, 95, 66, 79, 79, 84, 95, 65, 46, 66, 77, 80] ++
        List.replicate 50 0 ++ List.replicate 12 0 := by
  refine ⟨claim_c7_theorem b7 0 entries7 1 0 1 0 (by decide) (by decide) (by decide), ?_⟩
  decide


/-! Claim C3: trailer preservation. -/

theorem writeList_len (l : List (List Nat)) :
    ∀ b pos stride, (writeList b pos stride l).len = b.len := by
  induction l with
  | nil => intro b pos stride; rfl
  | cons e rest ih =>
    intro b pos stride
    rw [show writeList b pos stride (e :: rest) =
      writeList (writeBytes b pos e) (pos + stride) stride rest from rfl]
    rw [ih]
    rfl

theorem writeAddws_len (l : List (Nat × Nat)) :
    ∀ b NB k, (writeAddws b NB k l).len = b.len := by
  induction l with
  | nil => intro b NB k; rfl
  | cons pr rest ih =>
    obtain ⟨foff, v⟩ := pr
    intro b NB k
    rw [show writeAddws b NB k ((foff, v) :: rest) =
      writeAddws (writeBytes b foff (encodeAddwBytes (NB * (k + 1)) 0 0)) NB (k + 1) rest
      from rfl]
    rw [ih]
    rfl

theorem writeList_get_high (l : List (List Nat)) :
    ∀ b pos stride i, (∀ e ∈ l, e.length ≤ stride) → pos + l.length * stride ≤ i →
      (writeList b pos stride l).get i = b.get i := by
  induction l with
  | nil => intro b pos stride i h1 h2; rfl
  | cons e rest ih =>
    intro b pos stride i h1 h2
    rw [show writeList b pos stride (e :: rest) =
      writeList (writeBytes b pos e) (pos + stride) stride rest from rfl]
    have hmul : (rest.length + 1) * stride = rest.length * stride + stride := by ring
    rw [ih (writeBytes b pos e) (pos + stride) stride i
      (fun x hx => h1 x (List.mem_cons_of_mem _ hx))
      (by simp only [List.length_cons] at h2; omega)]
    exact writeBytes_get_hi b pos e i
      (by have := h1 e (List.mem_cons_self _ _); simp only [List.length_cons] at h2; omega)

theorem writeAddws_get_high (l : List (Nat × Nat)) :
    ∀ b NB k i, (∀ pr ∈ l, pr.1 + 4 ≤ i) → (writeAddws b NB k l).get i = b.get i := by
  induction l with
  | nil => intro b NB k i h; rfl
  | cons pr rest ih =>
    obtain ⟨foff, v⟩ := pr
    intro b NB k i h
    rw [show writeAddws b NB k ((foff, v) :: rest) =
      writeAddws (writeBytes b foff (encodeAddwBytes (NB * (k + 1)) 0 0)) NB (k + 1) rest
      from rfl]
    rw [ih _ NB (k + 1) i (fun x hx => h x (List.mem_cons_of_mem _ hx))]
    exact writeBytes_get_hi b foff _ i
      (by have := h (foff, v) (List.mem_cons_self _ _); simpa using this)

theorem sliceBytes_congr (b1 b2 : Buf) (off n : Nat)
    (h : ∀ k, k < n → rd b1 (off + k) = rd b2 (off + k)) :
    sliceBytes b1 off n = sliceBytes b2 off n := by
  unfold sliceBytes
  exact List.map_congr_left fun k hk => h k (List.mem_range.mp hk)

/-- One run of the fixer always restores the saved trailer: the last four
bytes of the output equal the last four bytes of the input. -/
theorem fix_trailer (b : Buf) : trailer4 (fixIntegrity b) = trailer4 b := by
  unfold trailer4 sliceBytes
  apply List.map_congr_left
  intro k hk
  have hk4 : k < 4 := List.mem_range.mp hk
  have he : (fixIntegrity b).len - 4 + k = fwSizeOf b + k := by
    rw [fixIntegrity_len]
    simp [neededSize]
  rw [he]
  unfold rd
  rw [fix_get_trailer b k hk4]
  rw [rd_mod]
  rfl

theorem sharedR26_getD_le (b : Buf) (p5off r26start S i : Nat) :
    ((sharedR26 b p5off r26start S).getD i []).length ≤ 16 := by
  by_cases hi : i < S
  · rw [show (sharedR26 b p5off r26start S).getD i [] =
      sliceP5 b p5off (r26start + i * 16) 16 from getD_map_range _ _ _ _ hi]
    rw [sliceP5_length]
  · rw [List.getD_eq_default _ _ (by simp [sharedR26]; omega)]
    simp

theorem sharedMetaRaw_getD_le (b : Buf) (p5off : Nat) (entries : List MetaEntry)
    (S i : Nat) : ((sharedMetaRaw b p5off entries S).getD i []).length ≤ 108 := by
  by_cases hi : i < S
  · rw [show (sharedMetaRaw b p5off entries S).getD i [] =
      sliceP5 b p5off ((entries.getD i default).tablePos) 108 from getD_map_range _ _ _ _ hi]
    rw [sliceP5_length]
  · rw [List.getD_eq_default _ _ (by simp [sharedMetaRaw]; omega)]
    simp

theorem newR26_mem_le (b : Buf) (p5off r26start oc S OB : Nat) :
    ∀ e ∈ newR26 b p5off r26start oc S OB, e.length ≤ 16 := by
  intro e he
  simp only [newR26, List.mem_flatten, List.mem_map] at he
  obtain ⟨l, ⟨t, ht, rfl⟩, hel⟩ := he
  simp only [themeR26, List.mem_append, List.mem_map] at hel
  rcases hel with ⟨i, hi, rfl⟩ | ⟨i, hi, rfl⟩
  · exact sharedR26_getD_le b p5off r26start S i
  · unfold privR26entry
    split
    · rw [sliceP5_length]
    · exact sharedR26_getD_le b p5off r26start S 0

theorem spliceName_length_le (raw nb : List Nat) (hraw : raw.length ≤ 108)
    (hnb : nb.length ≤ 63) : (spliceName raw nb).length ≤ 108 := by
  simp only [spliceName, nameField, List.length_append, List.length_take, List.length_drop,
    List.length_replicate]
  omega

theorem newMeta_mem_le (b : Buf) (p5off : Nat) (entries : List MetaEntry) (S OB : Nat) :
    ∀ e ∈ newMeta b p5off entries S OB, e.length ≤ 108 := by
  intro e he
  simp only [newMeta, List.mem_flatten, List.mem_map] at he
  obtain ⟨l, ⟨t, ht, rfl⟩, hel⟩ := he
  simp only [themeMeta, List.mem_append, List.mem_map] at hel
  rcases hel with ⟨i, hi, rfl⟩ | ⟨i, hi, rfl⟩
  · unfold metaForTheme
    split
    · exact spliceName_length_le _ _ (sharedMetaRaw_getD_le b p5off entries S i)
        (newNameBytes_le _ _)
    · exact sharedMetaRaw_getD_le b p5off entries S i
  · unfold privMetaEntry
    split
    · rw [sliceP5_length]
    · exact sharedMetaRaw_getD_le b p5off entries S 0

theorem patchWrites_len (b : Buf) (P : ParseResult) (info : PatchInfo) :
    (patchWrites b P info).len = b.len := by
  unfold patchWrites
  rw [writeAddws_len, writeBytes_len, writeBytes_len, writeList_len, writeList_len,
    writeBytes_len]

theorem patchWrites_get_high (b : Buf) (P : ParseResult) (info : PatchInfo) (i : Nat)
    (hb1 : P.part5Offset + P.rock26Off + 16 + 4 ≤ i)
    (hb2 : P.part5Offset + P.rock26Start +
      (newR26 b P.part5Offset P.rock26Start P.rock26Count info.sharedCount
        info.oldBlockSize).length * 16 ≤ i)
    (hb3 : P.part5Offset + P.tableStart +
      (newMeta b P.part5Offset P.entries info.sharedCount
        info.oldBlockSize).length * 108 ≤ i)
    (hb4 : 0x154 ≤ i)
    (hb5 : info.cmpOffset + 2 ≤ i)
    (hb6 : ∀ pr ∈ info.addwList, pr.1 + 4 ≤ i) :
    (patchWrites b P info).get i = b.get i := by
  unfold patchWrites
  rw [writeAddws_get_high _ _ _ _ _ hb6]
  rw [writeBytes_get_hi _ _ _ _ (by simpa using hb5)]
  rw [writeBytes_get_hi _ _ _ _ (by rw [u32Bytes_length]; omega)]
  rw [writeList_get_high _ _ _ _ _ (newMeta_mem_le b P.part5Offset P.entries _ _) hb3]
  rw [writeList_get_high _ _ _ _ _ (newR26_mem_le b P.part5Offset P.rock26Start _ _ _) hb2]
  exact writeBytes_get_hi _ _ _ _ (by rw [u32Bytes_length]; omega)

/-- The final fix step of the pipeline preserves the last four bytes of the
buffer it is given. -/
theorem fixStepGuarded_trailer (b y : Buf) (h : fixStepGuarded b = some y) :
    trailer4 y = trailer4 b := by
  unfold fixStepGuarded at h
  by_cases h1 : hasMagicB b = false
  · rw [if_pos h1] at h
    injection h with h2
    rw [← h2]
  · rw [if_neg h1] at h
    by_cases h2 : overflowB b = true
    · rw [if_pos h2] at h
      simp at h
    · rw [if_neg h2] at h
      by_cases h3 : neededSize b ≠ b.len
      · rw [if_pos h3] at h
        simp at h
      · rw [if_neg h3] at h
        injection h with h4
        rw [← h4]
        exact fix_trailer b

/-- Shape of a completed non-trivial patch run: the output is the fix step
applied to the written buffer. -/
theorem patch_completes_shape (b : Buf) (P : ParseResult) (info : PatchInfo) (r : PatchOut)
    (hp : parse b = some P) (hd : detectPatchInfo b P.rock26Count = .ok info)
    (hip : info.isPatched = false) (hpatch : patchForThemedBoots b = some r) :
    ∃ y, fixStepGuarded (patchWrites b P info) = some y ∧
      r.data = y ∧ r.alreadyPatched = false := by
  simp only [patchForThemedBoots, hp, hd, hip, Bool.false_eq_true, if_false] at hpatch
  split at hpatch
  · split at hpatch
    · split at hpatch
      · split at hpatch
        · split at hpatch
          · split at hpatch
            · split at hpatch
              · split at hpatch
                · simp at hpatch
                · next y hy =>
                  refine ⟨y, hy, ?_, ?_⟩
                  · injection hpatch with h5
                    rw [← h5]
                  · injection hpatch with h5
                    rw [← h5]
              · simp at hpatch
            · simp at hpatch
          · simp at hpatch
        · simp at hpatch
      · simp at hpatch
    · simp at hpatch
  · simp at hpatch

/-- Claim C3 (amended): `repair` always returns a buffer whose last four
bytes equal those of its input; `apply_theme_patch` does so provided the
rewritten tables and rewritten instructions all end at least four bytes
before the end of the file (the counterexample shows the table write-back
can otherwise overwrite the trailer in place before the fix step captures
it). -/
theorem claim_c3_theorem :
    (∀ b y, repairFn b = some y → trailer4 y = trailer4 b) ∧
    (∀ b P info r, parse b = some P → detectPatchInfo b P.rock26Count = .ok info →
      patchForThemedBoots b = some r →
      P.part5Offset + P.rock26Off + 16 + 4 ≤ b.len - 4 →
      P.part5Offset + P.rock26Start +
        (newR26 b P.part5Offset P.rock26Start P.rock26Count info.sharedCount
          info.oldBlockSize).length * 16 ≤ b.len - 4 →
      P.part5Offset + P.tableStart +
        (newMeta b P.part5Offset P.entries info.sharedCount
          info.oldBlockSize).length * 108 ≤ b.len - 4 →
      0x154 ≤ b.len - 4 →
      info.cmpOffset + 2 ≤ b.len - 4 →
      (∀ pr ∈ info.addwList, pr.1 + 4 ≤ b.len - 4) →
      trailer4 r.data = trailer4 b) := by
  constructor
  · intro b y hr
    unfold repairFn at hr
    by_cases h1 : hasMagicB b = false
    · rw [if_pos h1] at hr
      simp at hr
    · rw [if_neg h1] at hr
      by_cases h2 : overflowB b = true
      · rw [if_pos h2] at hr
        simp at hr
      · rw [if_neg h2] at hr
        injection hr with h3
        rw [← h3]
        exact fix_trailer b
  · intro b P info r hp hd hpatch hb1 hb2 hb3 hb4 hb5 hb6
    by_cases hip : info.isPatched = true
    · simp only [patchForThemedBoots, hp, hd, hip, if_true] at hpatch
      injection hpatch with h
      rw [← h]
    · obtain ⟨y, hfs, hrd, _⟩ :=
        patch_completes_shape b P info r hp hd (by simpa using hip) hpatch
      rw [hrd, fixStepGuarded_trailer _ _ hfs]
      unfold trailer4
      rw [patchWrites_len]
      apply sliceBytes_congr
      intro k hk
      unfold rd
      rw [patchWrites_get_high b P info (b.len - 4 + k) (by omega) (by omega) (by omega)
        (by omega) (by omega) (fun pr hpr => by have := hb6 pr hpr; omega)]


/-- Claim C3 counterexample: on `x3` the patch completes, the metadata
write-back covers the last four bytes in place, and the output trailer is
the filler record's zeros instead of the input's `DE AD BE EF`. -/
theorem claim_c3_cx :
    (patchForThemedBoots x3).map (fun r => trailer4 r.data) = some [0, 0, 0, 0] ∧
    trailer4 x3 = [222, 173, 190, 239] ∧
    (patchForThemedBoots x3).map (fun r => trailer4 r.data) ≠ some (trailer4 x3) := by
  have h1 : (patchForThemedBoots x3).map (fun r => trailer4 r.data) = some [0, 0, 0, 0] := by
    decide
  have h2 : trailer4 x3 = [222, 173, 190, 239] := by decide
  refine ⟨h1, h2, ?_⟩
  rw [h1, h2]
  decide

/-- Claim C3 witness: trailer preservation for `repair` on `w1`, and for the
patch operation on a container whose rewritten tables stay clear of the
trailer. -/
theorem claim_c3_witness :
    trailer4 (fixIntegrity w1) = trailer4 w1 ∧
    trailer4 (PatchOut.mk bufPatchedBig true).data = trailer4 bufPatchedBig := by
  constructor
  · refine claim_c3_theorem.1 w1 (fixIntegrity w1) ?_
    unfold repairFn
    rw [if_neg (by decide), if_neg (by decide)]
  · exact claim_c3_theorem.2 bufPatchedBig bufPatchedParse bufPatchedInfo
      ⟨bufPatchedBig, true⟩ (by decide) (by rfl) (by rfl) (by decide) (by decide) (by decide)
      (by decide) (by decide) (by decide)


end FwModel
